import Mathlib

/-!
Verification of the DataTracker temporal aggregation and reconciliation
engine (`backend/services/stats_service.py`, `backend/crud.py`,
`backend/utils.py`).

Python floats are modelled as rationals (ℚ), optional values as `Option`,
date strings as Lean `String` compared with an explicit code-point
lexicographic comparison (Python's `str` comparison), and Python's stable
`sorted` as insertion sort (any two stable sorts agree extensionally).
The database session is modelled as an explicit `Store` value threaded
through the reconciliation routine.
-/

/- ===================================================================
   Python string comparison: code-point lexicographic order.
   =================================================================== -/

/-- Lexicographic comparison of character lists by code point, the
semantics of Python's `str <= str`. -/
def lexLe : List Char → List Char → Bool
  | [], _ => true
  | _ :: _, [] => false
  | a :: as, b :: bs => if a < b then true else if a = b then lexLe as bs else false

/-- Python `a <= b` on strings. -/
def strLe (a b : String) : Bool := lexLe a.data b.data

theorem lexLe_refl (l : List Char) : lexLe l l = true := by
  induction l with
  | nil => rfl
  | cons a as ih => simp [lexLe, lt_irrefl, ih]

theorem lexLe_total (a b : List Char) : lexLe a b = true ∨ lexLe b a = true := by
  induction a generalizing b with
  | nil => left; rfl
  | cons x xs ih =>
    cases b with
    | nil => right; rfl
    | cons y ys =>
      rcases lt_trichotomy x y with h | h | h
      · left; simp [lexLe, h]
      · subst h
        rcases ih ys with h' | h'
        · left; simp [lexLe, lt_irrefl, h']
        · right; simp [lexLe, lt_irrefl, h']
      · right; simp [lexLe, h]

theorem lexLe_trans {a b c : List Char} (hab : lexLe a b = true)
    (hbc : lexLe b c = true) : lexLe a c = true := by
  induction a generalizing b c with
  | nil => rfl
  | cons x xs ih =>
    cases b with
    | nil => simp [lexLe] at hab
    | cons y ys =>
      cases c with
      | nil => simp [lexLe] at hbc
      | cons z zs =>
        simp only [lexLe] at hab hbc ⊢
        by_cases hxy : x < y
        · by_cases hyz : y < z
          · simp [lt_trans hxy hyz]
          · simp [hyz] at hbc
            by_cases hyz' : y = z
            · subst hyz'; simp [hxy]
            · simp [hyz'] at hbc
        · simp [hxy] at hab
          by_cases hxy' : x = y
          · subst hxy'
            simp [hxy] at hab
            by_cases hxz : x < z
            · simp [hxz]
            · simp [hxz] at hbc ⊢
              by_cases hxz' : x = z
              · simp [hxz'] at hbc ⊢
                exact ih hab hbc
              · simp [hxz'] at hbc
          · simp [hxy'] at hab

/-- `strLe` as a proposition, for use with `List.insertionSort`. -/
def strLeP (a b : String) : Prop := strLe a b = true

instance : DecidableRel strLeP := fun a b => by
  unfold strLeP; infer_instance

instance : IsTotal String strLeP :=
  ⟨fun a b => lexLe_total a.data b.data⟩

instance : IsTrans String strLeP :=
  ⟨fun _ _ _ hab hbc => lexLe_trans hab hbc⟩

theorem strLe_refl (s : String) : strLe s s = true := lexLe_refl s.data

theorem strLe_trans {a b c : String} (hab : strLe a b = true)
    (hbc : strLe b c = true) : strLe a c = true := lexLe_trans hab hbc

theorem strLe_total (a b : String) : strLe a b = true ∨ strLe b a = true :=
  lexLe_total a.data b.data

/- ===================================================================
   Data model (`backend/models.py`, `backend/constants.py`).
   =================================================================== -/

/-- `models.Category` (SQLModel table `categories`). -/
structure Category where
  id : Nat
  name : String
  type : String
  unit : String
  auto_create : Bool
deriving DecidableEq

/-- `models.Entry` (SQLModel table `entries`); `value` and `deposit` are
kept optional because the service layer guards both with
`safe_float_conversion` / truthiness checks. -/
structure Entry where
  id : Nat
  category_id : Nat
  date : String
  value : Option ℚ
  deposit : Option ℚ
  comment : Option String
  auto_generated : Bool
deriving DecidableEq

/-- `constants.CategoryType.SPAREN.value`. -/
def CategoryType.SPAREN : String := "sparen"

/-- `constants.CategoryType.NORMAL.value`. -/
def CategoryType.NORMAL : String := "normal"

/-- `utils.safe_float_conversion` with its default fallback 0.0. -/
def safe_float_conversion (value : Option ℚ) : ℚ := value.getD 0

/-- Python truthiness of an optional float (`None` and `0.0` are falsy). -/
def pyTruthy (o : Option ℚ) : Bool := o.getD 0 ≠ 0

/-- Date order on entries (`key=lambda x: x.date`). -/
def entryLe (a b : Entry) : Prop := strLe a.date b.date = true

instance : DecidableRel entryLe := fun a b => by
  unfold entryLe; infer_instance

instance : IsTotal Entry entryLe := ⟨fun a b => strLe_total a.date b.date⟩

instance : IsTrans Entry entryLe := ⟨fun _ _ _ => strLe_trans⟩

/-- Python `sorted(entries, key=lambda x: x.date)`: a stable sort by date.
Insertion sort is stable, hence extensionally equal to CPython's sort. -/
def sortByDate (es : List Entry) : List Entry := List.insertionSort entryLe es

/- ===================================================================
   `stats_service.calculate_sparkline_data`.
   =================================================================== -/

/-- A `{date, value}` sparkline point. -/
structure SPoint where
  date : String
  value : ℚ
deriving DecidableEq

/-- Projection of an entry to a sparkline point. -/
def sparkPoint (e : Entry) : SPoint :=
  ⟨e.date, safe_float_conversion e.value⟩

/-- Python's trailing slice `lst[-limit:]` for a natural `limit`
(`lst[-0:]` is the whole list). -/
def pyTailSlice {α : Type} (l : List α) (limit : Nat) : List α :=
  if limit = 0 then l else l.drop (l.length - limit)

/-- `stats_service.calculate_sparkline_data`. -/
def calculate_sparkline_data (entries : List Entry) (limit : Nat) : List SPoint :=
  let sorted_entries := sortByDate entries
  let last_entries :=
    if sorted_entries.length > limit then pyTailSlice sorted_entries limit
    else sorted_entries
  last_entries.map sparkPoint

/- ===================================================================
   `stats_service.calculate_category_total`.
   =================================================================== -/

/-- `stats_service.calculate_category_total`: 0 on an empty list, last
sorted value for a "sparen" category, sum of values otherwise. -/
def calculate_category_total (category : Category) (entries : List Entry) : ℚ :=
  if entries = [] then 0
  else if category.type = CategoryType.SPAREN then
    ((sortByDate entries).getLast?).elim 0 (fun e => safe_float_conversion e.value)
  else (entries.map (fun e => safe_float_conversion e.value)).sum

/- ===================================================================
   `utils.calculate_percentage_change`,
   `stats_service.calculate_profit_metrics`.
   =================================================================== -/

/-- Round half to even, the tie behavior of Python's builtin `round`. -/
def roundHalfEven (q : ℚ) : ℤ :=
  let f := ⌊q⌋
  let r := q - f
  if r < 1/2 then f
  else if 1/2 < r then f + 1
  else if 2 ∣ f then f else f + 1

/-- Python `round(x, 2)`. -/
def pyRound2 (q : ℚ) : ℚ := (roundHalfEven (q * 100) : ℚ) / 100

/-- `utils.calculate_percentage_change` at its default precision 2. -/
def calculate_percentage_change (current previous : ℚ) : Option ℚ :=
  if previous = 0 then none
  else some (pyRound2 ((current - previous) / previous * 100))

/-- `stats_service.calculate_profit_metrics`; the pair is
(`profit`, `profitPercentage`). -/
def calculate_profit_metrics (total_value total_deposits : ℚ) :
    Option ℚ × Option ℚ :=
  if total_deposits = 0 then (none, none)
  else (some (total_value - total_deposits),
        calculate_percentage_change total_value total_deposits)

/- ===================================================================
   Storage model (`backend/crud.py`): an explicit store value standing
   for the SQL session, threaded through the reconciliation routine.
   =================================================================== -/

/-- The database state: category rows, entry rows (in insertion order,
standing for rowid order), and the next fresh entry primary key. -/
structure Store where
  cats : List Category
  entries : List Entry
  nextId : Nat
deriving DecidableEq

/-- The existence check `select(Entry).where(category_id == cat.id,
date == yyyy_mm).first()` of `auto_create_entries_for_month`. -/
def hasEntryFor (entries : List Entry) (cid : Nat) (m : String) : Bool :=
  entries.any (fun e => e.category_id == cid && e.date == m)

/-- `select(Entry).where(category_id == cid).order_by(date.desc()).first()`:
the chronologically last entry of a category. -/
def lastEntryFor (entries : List Entry) (cid : Nat) : Option Entry :=
  (sortByDate (entries.filter (fun e => e.category_id == cid))).getLast?

/-- The deposit carried over onto an auto-created entry
(`crud.auto_create_entries_for_month`, lines 688-697). -/
def carryDeposit (c : Category) (entries : List Entry) : Option ℚ :=
  if c.type = CategoryType.SPAREN then
    match lastEntryFor entries c.id with
    | some last => last.deposit
    | none => none
  else none

/-- The per-category loop of `crud.auto_create_entries_for_month`:
skip when an entry for `(category, month)` exists, otherwise commit a
fresh zero-value auto-generated entry and record its id pair. -/
def reconcileGo (m : String) :
    List Category → Store → List (Nat × Nat) → Store × List (Nat × Nat)
  | [], st, created => (st, created)
  | c :: rest, st, created =>
    if hasEntryFor st.entries c.id m then reconcileGo m rest st created
    else
      let entry : Entry := ⟨st.nextId, c.id, m, some 0, carryDeposit c st.entries, none, true⟩
      reconcileGo m rest ⟨st.cats, st.entries ++ [entry], st.nextId + 1⟩
        (created ++ [(c.id, st.nextId)])

/-- `crud.auto_create_entries_for_month` for an explicit target month:
returns the updated store and the list of created
`(category_id, entry_id)` pairs. -/
def auto_create_entries_for_month (m : String) (st : Store) :
    Store × List (Nat × Nat) :=
  reconcileGo m (st.cats.filter (fun c => c.auto_create)) st []

/-- `crud.auto_create_entries_for_month` under fault injection: `fail`
selects the categories whose `s.commit()` raises.  The whole loop sits in
one `try` block whose handler logs and re-raises, so the first failing
commit aborts the remaining categories and discards the collected result
list, while entries committed before the failure persist in the store. -/
def reconcileGoF (fail : Nat → Bool) (m : String) :
    List Category → Store → List (Nat × Nat) →
      Store × Except String (List (Nat × Nat))
  | [], st, created => (st, .ok created)
  | c :: rest, st, created =>
    if hasEntryFor st.entries c.id m then reconcileGoF fail m rest st created
    else if fail c.id then (st, .error "commit failed")
    else
      let entry : Entry := ⟨st.nextId, c.id, m, some 0, carryDeposit c st.entries, none, true⟩
      reconcileGoF fail m rest ⟨st.cats, st.entries ++ [entry], st.nextId + 1⟩
        (created ++ [(c.id, st.nextId)])

/-- Entry point of the fault-injected reconciliation model. -/
def auto_create_entries_for_month_withFailures (fail : Nat → Bool)
    (m : String) (st : Store) : Store × Except String (List (Nat × Nat)) :=
  reconcileGoF fail m (st.cats.filter (fun c => c.auto_create)) st []

/- ===================================================================
   `stats_service.get_dashboard_timeseries`.
   =================================================================== -/

/-- Python dict assignment `mp[k] = v` on an association list: update in
place when the key is present, append otherwise. -/
def dictInsert {κ β : Type} [DecidableEq κ] (k : κ) (v : β)
    (mp : List (κ × β)) : List (κ × β) :=
  if mp.any (fun p => p.1 = k) then
    mp.map (fun p => if p.1 = k then (k, v) else p)
  else mp ++ [(k, v)]

/-- `crud.list_entries_for_category`: the category's entries ordered by
date. -/
def list_entries_for_category (st : Store) (cid : Nat) : List Entry :=
  sortByDate (st.entries.filter (fun e => e.category_id == cid))

/-- The `start_date` filter of `get_dashboard_timeseries`
(`if start_date: entries = [e for e in entries if str(e.date) >= start_date]`,
an empty string being falsy). -/
def filterStart (sd : Option String) (es : List Entry) : List Entry :=
  match sd with
  | some s => if s = "" then es else es.filter (fun e => strLe s e.date)
  | none => es

/-- The `end_date` filter of `get_dashboard_timeseries`. -/
def filterEnd (ed : Option String) (es : List Entry) : List Entry :=
  match ed with
  | some s => if s = "" then es else es.filter (fun e => strLe e.date s)
  | none => es

/-- The category-type filter of `get_dashboard_timeseries`
(`if category_type and category_type != "all"`). -/
def typeFiltered (cats : List Category) (ct : Option String) : List Category :=
  match ct with
  | some t =>
    if t = "" then cats
    else if t = "all" then cats
    else cats.filter (fun c => c.type == t)
  | none => cats

/-- The filtered per-category entry lists collected by the first loop of
`get_dashboard_timeseries` (before the per-category sort). -/
def timeseriesPairs (st : Store) (sd ed ct : Option String) :
    List (Category × List Entry) :=
  (typeFiltered st.cats ct).map (fun c =>
    (c, filterEnd ed (filterStart sd (list_entries_for_category st c.id))))

/-- `category_entries_map`: a dict keyed by category id, holding the
category and its date-sorted filtered entries. -/
def timeseriesCatMap (st : Store) (sd ed ct : Option String) :
    List (Nat × (Category × List Entry)) :=
  (timeseriesPairs st sd ed ct).foldl
    (fun mp p => dictInsert p.1.id (p.1, sortByDate p.2) mp) []

/-- The values of `category_entries_map` in iteration order. -/
def timeseriesCM (st : Store) (sd ed ct : Option String) :
    List (Category × List Entry) :=
  (timeseriesCatMap st sd ed ct).map Prod.snd

/-- `sorted(all_dates)`: the merged date axis, ascending and
duplicate-free. -/
def timeseriesAxis (st : Store) (sd ed ct : Option String) : List String :=
  List.insertionSort strLeP
    ((((timeseriesPairs st sd ed ct).map (fun p => p.2.map Entry.date)).flatten).dedup)

/-- The `last_entry` scan of the SPAREN branch: keep the last entry (in
list order) whose date is at most `d`. -/
def lastLeFold (es : List Entry) (d : String) : Option Entry :=
  es.foldl (fun acc e => if strLe e.date d then some e else acc) none

/-- The body of the per-date category loop of `get_dashboard_timeseries`
(lines 205-236), accumulating `(total_value, sparen_value,
sparen_deposits)`. -/
def timeseriesStep (d : String) (acc : ℚ × ℚ × ℚ)
    (p : Category × List Entry) : ℚ × ℚ × ℚ :=
  let c := p.1
  let entries := p.2
  if c.unit ≠ "€" then acc
  else if c.type = CategoryType.SPAREN then
    let acc1 :=
      match lastLeFold entries d with
      | some last_entry =>
          (acc.1 + safe_float_conversion last_entry.value,
           acc.2.1 + safe_float_conversion last_entry.value, acc.2.2)
      | none => acc
    (acc1.1, acc1.2.1,
     entries.foldl (fun s e =>
        if strLe e.date d && pyTruthy e.deposit then
          s + safe_float_conversion e.deposit
        else s) acc1.2.2)
  else
    (entries.foldl (fun s e =>
        if strLe e.date d then s + safe_float_conversion e.value else s) acc.1,
     acc.2.1, acc.2.2)

/-- The three running totals computed for one axis date. -/
def dateTotals (cm : List (Category × List Entry)) (d : String) : ℚ × ℚ × ℚ :=
  cm.foldl (timeseriesStep d) (0, 0, 0)

/-- A combined-series point `{date, value}`. -/
structure TPoint where
  date : String
  value : ℚ
deriving DecidableEq

/-- A savings-series point `{date, value, deposits, profit}`. -/
structure SparenPoint where
  date : String
  value : ℚ
  deposits : ℚ
  profit : ℚ
deriving DecidableEq

/-- A `categoryComparison` element `{name, value, type}`. -/
structure CatComparison where
  name : String
  value : ℚ
  type : String
deriving DecidableEq

/-- Result shape of `get_dashboard_timeseries`. -/
structure TimeseriesResult where
  totalValueData : List TPoint
  sparenData : List SparenPoint
  categoryComparison : List CatComparison
deriving DecidableEq

/-- Date order on combined-series points (`key=lambda x: x["date"]`). -/
def tpointLe (a b : TPoint) : Prop := strLe a.date b.date = true

instance : DecidableRel tpointLe := fun a b => by
  unfold tpointLe; infer_instance

/-- Date order on savings-series points. -/
def spointLe (a b : SparenPoint) : Prop := strLe a.date b.date = true

instance : DecidableRel spointLe := fun a b => by
  unfold spointLe; infer_instance

/-- One iteration of the per-date loop: compute the totals for `d`, then
perform the dict assignments into `all_data` and (conditionally)
`sparen_data`. -/
def buildStep (cm : List (Category × List Entry))
    (acc : List (String × TPoint) × List (String × SparenPoint))
    (d : String) : List (String × TPoint) × List (String × SparenPoint) :=
  let t := dateTotals cm d
  (dictInsert d ⟨d, t.1⟩ acc.1,
   if 0 < t.2.1 ∨ 0 < t.2.2 then
     dictInsert d ⟨d, t.2.1, t.2.2, t.2.1 - t.2.2⟩ acc.2
   else acc.2)

/-- `stats_service.get_dashboard_timeseries`. -/
def get_dashboard_timeseries (st : Store)
    (start_date end_date category_type : Option String) : TimeseriesResult :=
  let cm := timeseriesCM st start_date end_date category_type
  let axis := timeseriesAxis st start_date end_date category_type
  let built := axis.foldl (buildStep cm) ([], [])
  { totalValueData := List.insertionSort tpointLe (built.1.map Prod.snd)
  , sparenData := List.insertionSort spointLe (built.2.map Prod.snd)
  , categoryComparison :=
      cm.map (fun p => ⟨p.1.name, calculate_category_total p.1 p.2, p.1.type⟩) }

/- ===================================================================
   Declarative per-category contributions (the specification side of
   the Timeseries Merger claims).
   =================================================================== -/

/-- The entries of a list dated at most `d`. -/
def entriesUpTo (es : List Entry) (d : String) : List Entry :=
  es.filter (fun e => strLe e.date d)

/-- Carry-forward value: the value of the last listed entry dated at
most `d`, 0 when none exists. -/
def asOfValue (es : List Entry) (d : String) : ℚ :=
  ((entriesUpTo es d).getLast?).elim 0 (fun e => safe_float_conversion e.value)

/-- Cumulative sum of entry values dated at most `d`. -/
def cumulativeValue (es : List Entry) (d : String) : ℚ :=
  ((entriesUpTo es d).map (fun e => safe_float_conversion e.value)).sum

/-- Sum of deposits dated at most `d` (absent deposits count 0). -/
def depositsUpTo (es : List Entry) (d : String) : ℚ :=
  ((entriesUpTo es d).map (fun e => e.deposit.getD 0)).sum

/-- Contribution of one category to the combined total at date `d`:
nothing unless the unit is the currency marker, carry-forward for
SPAREN, cumulative sum for any other type. -/
def contribCombined (c : Category) (es : List Entry) (d : String) : ℚ :=
  if c.unit ≠ "€" then 0
  else if c.type = CategoryType.SPAREN then asOfValue es d
  else cumulativeValue es d

/-- Contribution of one category to the savings-only value total. -/
def contribSparen (c : Category) (es : List Entry) (d : String) : ℚ :=
  if c.unit = "€" ∧ c.type = CategoryType.SPAREN then asOfValue es d else 0

/-- Contribution of one category to the savings-only deposit total. -/
def contribDeposits (c : Category) (es : List Entry) (d : String) : ℚ :=
  if c.unit = "€" ∧ c.type = CategoryType.SPAREN then depositsUpTo es d else 0

/-- The savings-only running value at an axis date (no filters). -/
def sparenValueAt (st : Store) (d : String) : ℚ :=
  ((timeseriesCM st none none none).map (fun p => contribSparen p.1 p.2 d)).sum

/-- The savings-only running deposit total at an axis date (no filters). -/
def sparenDepositsAt (st : Store) (d : String) : ℚ :=
  ((timeseriesCM st none none none).map (fun p => contribDeposits p.1 p.2 d)).sum

/- ===================================================================
   `utils.parse_month_string` and `crud.monthly_by_year`.
   =================================================================== -/

/-- Decimal digit value of a character. -/
def digitVal (c : Char) : Nat := c.toNat - 48

/-- `utils.parse_month_string`: `re.match` against `^\d{4}-\d{2}$` (whose
`$` also matches just before one final newline, and `int` strips the
whitespace), then split and convert both components. -/
def parse_month_string (s : String) : Option (Nat × Nat) :=
  match s.data with
  | [y1, y2, y3, y4, h, m1, m2] =>
    if y1.isDigit && y2.isDigit && y3.isDigit && y4.isDigit && h == '-'
        && m1.isDigit && m2.isDigit then
      some (((digitVal y1 * 10 + digitVal y2) * 10 + digitVal y3) * 10 + digitVal y4,
            digitVal m1 * 10 + digitVal m2)
    else none
  | [y1, y2, y3, y4, h, m1, m2, nl] =>
    if y1.isDigit && y2.isDigit && y3.isDigit && y4.isDigit && h == '-'
        && m1.isDigit && m2.isDigit && nl == '\n' then
      some (((digitVal y1 * 10 + digitVal y2) * 10 + digitVal y3) * 10 + digitVal y4,
            digitVal m1 * 10 + digitVal m2)
    else none
  | _ => none

/-- Decimal digits of a natural number (fuel-structural so that the
kernel can evaluate it). -/
def natDigitsAux : Nat → Nat → List Char
  | 0, _ => []
  | fuel + 1, n =>
    if n < 10 then [Char.ofNat (48 + n)]
    else natDigitsAux fuel (n / 10) ++ [Char.ofNat (48 + n % 10)]

/-- Python `str(n)` for a natural number. -/
def natToStr (n : Nat) : String := ⟨natDigitsAux (n + 1) n⟩

/-- Python `f"{n:04d}"`. -/
def pad4 (n : Nat) : String :=
  let s := natToStr n
  if s.length < 4 then ⟨List.replicate (4 - s.length) '0' ++ s.data⟩ else s

/-- The SQL range prefilter of `crud.monthly_by_year` (`date >=
f"{from_year:04d}-01"`, `date <= f"{to_year:04d}-12"`, each applied only
when the bound is truthy). -/
def sqlPrefilter (fy ty : Option Nat) (es : List Entry) : List Entry :=
  let es1 :=
    match fy with
    | some n => if n = 0 then es else es.filter (fun e => strLe (pad4 n ++ "-01") e.date)
    | none => es
  match ty with
  | some n => if n = 0 then es1 else es1.filter (fun e => strLe e.date (pad4 n ++ "-12"))
  | none => es1

/-- One `{"values": [...12...], "deposits": [...12...]}` bucket. -/
structure YearBucket where
  values : List ℚ
  deposits : List ℚ
deriving DecidableEq

/-- Result shape of `crud.monthly_by_year`. -/
structure MonthlyByYearResult where
  category_id : Nat
  years : List (String × YearBucket)
deriving DecidableEq

/-- Python `lst[i] += v` for a possibly negative index: negative indices
wrap once from the end, and an index still out of range raises. -/
def pyAddAt (l : List ℚ) (i : ℤ) (v : ℚ) : Option (List ℚ) :=
  let j := if i < 0 then i + l.length else i
  if 0 ≤ j ∧ j < l.length then some (l.set j.toNat (l.getD j.toNat 0 + v))
  else none

/-- `years[k]["values"][month-1] += v; years[k]["deposits"][month-1] += dep`
on the association-list model of the `years` dict. -/
def updateYears (k : String) (month : Nat) (v dep : ℚ) :
    List (String × YearBucket) → Option (List (String × YearBucket))
  | [] => none
  | (k', b) :: rest =>
    if k' = k then
      match pyAddAt b.values ((month : ℤ) - 1) v,
            pyAddAt b.deposits ((month : ℤ) - 1) dep with
      | some vs, some ds => some ((k', ⟨vs, ds⟩) :: rest)
      | _, _ => none
    else (updateYears k month v dep rest).map (fun ys => (k', b) :: ys)

/-- The in-loop check `if from_year and year < from_year: continue`
(`from_year` is falsy when `None` or 0). -/
def fyDrops (fy : Option Nat) (year : Nat) : Bool :=
  match fy with
  | some n => n ≠ 0 && year < n
  | none => false

/-- The in-loop check `if to_year and year > to_year: continue`. -/
def tyDrops (ty : Option Nat) (year : Nat) : Bool :=
  match ty with
  | some n => n ≠ 0 && n < year
  | none => false

/-- The per-entry loop of `crud.monthly_by_year` (lines 614-631):
unparsable dates are skipped, the year-range re-check drops out-of-range
years, a missing year key is initialised to two zero arrays of length 12,
and the entry's value and deposit are accumulated into the month slot.
An out-of-range month index raises (`IndexError` escapes the loop). -/
def monthlyGo (fy ty : Option Nat) :
    List Entry → List (String × YearBucket) →
      Except String (List (String × YearBucket))
  | [], years => .ok years
  | e :: rest, years =>
    match parse_month_string e.date with
    | none => monthlyGo fy ty rest years
    | some (year, month) =>
      if fyDrops fy year then
        monthlyGo fy ty rest years
      else if tyDrops ty year then
        monthlyGo fy ty rest years
      else
        let ys := natToStr year
        let years1 :=
          if (years.lookup ys).isNone then
            years ++ [(ys, ⟨List.replicate 12 0, List.replicate 12 0⟩)]
          else years
        match updateYears ys month (e.value.getD 0) (e.deposit.getD 0) years1 with
        | some years2 => monthlyGo fy ty rest years2
        | none => .error "list index out of range"

/-- `crud.monthly_by_year` on the already-selected entry rows of one
category (the `where category_id == cid` part of the query). -/
def monthly_by_year (category_id : Nat) (fy ty : Option Nat)
    (entries : List Entry) : Except String MonthlyByYearResult :=
  match monthlyGo fy ty (sortByDate (sqlPrefilter fy ty entries)) [] with
  | .ok years => .ok ⟨category_id, years⟩
  | .error msg => .error msg

/-- Declarative side of the bucketizer: the year-range re-check of the
loop as a predicate on the parsed year. -/
def monthKeeps (fy ty : Option Nat) (y : Nat) : Bool :=
  !fyDrops fy y && !tyDrops ty y

/-- The `(year-string, month)` slot an entry contributes to, if any. -/
def entryYearKey (fy ty : Option Nat) (e : Entry) : Option (String × Nat) :=
  match parse_month_string e.date with
  | some (y, m) => if monthKeeps fy ty y then some (natToStr y, m) else none
  | none => none

/-- The list of entries the bucketizer loop actually processes. -/
def monthlyProcessed (fy ty : Option Nat) (entries : List Entry) : List Entry :=
  sortByDate (sqlPrefilter fy ty entries)

/-- Declarative value accumulation for one `(year, month)` slot. -/
def bucketValueSum (fy ty : Option Nat) (es : List Entry) (k : String)
    (m : Nat) : ℚ :=
  (es.map (fun e =>
    if entryYearKey fy ty e = some (k, m) then e.value.getD 0 else 0)).sum

/-- Declarative deposit accumulation for one `(year, month)` slot. -/
def bucketDepositSum (fy ty : Option Nat) (es : List Entry) (k : String)
    (m : Nat) : ℚ :=
  (es.map (fun e =>
    if entryYearKey fy ty e = some (k, m) then e.deposit.getD 0 else 0)).sum

/-- Bucket cell read used to state the bucketizer claims. -/
def valLookup (years : List (String × YearBucket)) (k : String) (m : Nat) : ℚ :=
  match years.lookup k with
  | some b => b.values.getD (m - 1) 0
  | none => 0

/-- Deposit cell read used to state the bucketizer claims. -/
def depLookup (years : List (String × YearBucket)) (k : String) (m : Nat) : ℚ :=
  match years.lookup k with
  | some b => b.deposits.getD (m - 1) 0
  | none => 0

/- ===================================================================
   Concrete fixtures for witnesses and counterexamples.
   =================================================================== -/

/-- A savings category with the currency unit. -/
def catSparenW : Category := ⟨1, "Depot", "sparen", "€", true⟩

/-- A NORMAL category with a non-currency unit. -/
def catNormalW : Category := ⟨2, "Laufen", "normal", "km", false⟩

/-- Fixture store for the counterexample to the claim that a savings
point is emitted whenever the running savings value is non-zero: the
single savings value is negative. -/
def stC6 : Store :=
  ⟨[⟨1, "S", "sparen", "€", false⟩],
   [⟨1, 1, "2024-01", some (-5), none, none, false⟩], 2⟩

/-- Fixture store for the reconciliation fault-injection run: three
auto-create categories, none with an entry yet. -/
def stC5 : Store :=
  ⟨[⟨1, "A", "normal", "€", true⟩, ⟨2, "B", "normal", "€", true⟩,
    ⟨3, "C", "normal", "€", true⟩], [], 1⟩

/-- Fault oracle: the commit for category 2 raises. -/
def failC5 : Nat → Bool := fun cid => cid == 2

/-- Fixture store for the reconciliation witnesses: one auto-create
savings category whose last entry carries a deposit. -/
def stW4 : Store :=
  ⟨[catSparenW],
   [⟨7, 1, "2024-01", some 100, some 50, none, false⟩], 8⟩

/-- Fixture entries for the sparkline and total witnesses. -/
def entW1 : Entry := ⟨1, 2, "2024-02", some 7, none, none, false⟩

/-- Second fixture entry, dated earlier than `entW1`. -/
def entW2 : Entry := ⟨2, 2, "2024-01", some 5, none, none, false⟩

/-- Fixture entries for the bucketizer witness: two entries in the same
month plus one with an unparsable date. -/
def entW3 : Entry := ⟨3, 5, "2024-03", some 2, some 1, none, false⟩

/-- Duplicate-month fixture entry. -/
def entW4 : Entry := ⟨4, 5, "2024-03", some 4, none, none, false⟩

/-- Unparsable-date fixture entry. -/
def entW5 : Entry := ⟨5, 5, "bad-date", some 9, some 9, none, false⟩

/- ===================================================================
   General helper lemmas.
   =================================================================== -/

theorem sortByDate_sorted (es : List Entry) :
    List.Sorted entryLe (sortByDate es) :=
  List.sorted_insertionSort entryLe es

theorem sortByDate_perm (es : List Entry) : (sortByDate es).Perm es :=
  List.perm_insertionSort entryLe es

theorem sorted_getLast_ge {l : List Entry} (hs : List.Sorted entryLe l)
    {e : Entry} (h : l.getLast? = some e) :
    ∀ x ∈ l, strLe x.date e.date = true := by
  induction l with
  | nil => simp at h
  | cons a t ih =>
    cases t with
    | nil =>
      simp only [List.getLast?_singleton, Option.some.injEq] at h
      subst h
      intro x hx
      rcases List.mem_singleton.mp hx with rfl
      exact strLe_refl _
    | cons b t2 =>
      rw [List.getLast?_cons_cons] at h
      intro x hx
      rcases List.mem_cons.mp hx with rfl | hx'
      · have he : e ∈ b :: t2 := List.mem_of_mem_getLast? h
        exact (List.pairwise_cons.mp hs).1 e he
      · exact ih hs.of_cons h x hx'

/- ===================================================================
   C9 / C10: the sparkline windower.
   =================================================================== -/

/-- C9: `sparkline(entries, limit=10)` returns at most 10 points,
chronologically ordered by date ascending, and the result is a suffix of
the full date-sorted entry list projected to `{date, value}`. -/
theorem c9_sparkline_window (entries : List Entry) :
    (calculate_sparkline_data entries 10).length ≤ 10
    ∧ List.Pairwise (fun a b : SPoint => strLe a.date b.date = true)
        (calculate_sparkline_data entries 10)
    ∧ calculate_sparkline_data entries 10 <:+ (sortByDate entries).map sparkPoint := by
  have hsorted := sortByDate_sorted entries
  by_cases h : (sortByDate entries).length > 10
  · have hcalc : calculate_sparkline_data entries 10
        = ((sortByDate entries).drop ((sortByDate entries).length - 10)).map sparkPoint := by
      simp [calculate_sparkline_data, pyTailSlice, h]
    refine ⟨?_, ?_, ?_⟩
    · rw [hcalc, List.length_map, List.length_drop]
      omega
    · rw [hcalc]
      exact List.pairwise_map.mpr
        (hsorted.sublist (List.drop_sublist _ _))
    · rw [hcalc]
      exact List.IsSuffix.map sparkPoint (List.drop_suffix _ _)
  · have hcalc : calculate_sparkline_data entries 10
        = (sortByDate entries).map sparkPoint := by
      simp [calculate_sparkline_data, h]
    refine ⟨?_, ?_, ?_⟩
    · rw [hcalc, List.length_map]; omega
    · rw [hcalc]
      exact List.pairwise_map.mpr hsorted
    · rw [hcalc]

/-- C10: with `limit = 0` the guard `len(entries) > 0` passes for any
non-empty input and the slice `entries[-0:]` is the whole list, so the
sparkline returns every entry instead of zero points. -/
theorem c10_sparkline_zero_limit (entries : List Entry) (h : entries ≠ []) :
    calculate_sparkline_data entries 0 = (sortByDate entries).map sparkPoint
    ∧ (calculate_sparkline_data entries 0).length = entries.length := by
  have hlen : (sortByDate entries).length = entries.length :=
    (sortByDate_perm entries).length_eq
  have hpos : (sortByDate entries).length > 0 := by
    rw [hlen]
    exact List.length_pos.mpr h
  have hcalc : calculate_sparkline_data entries 0
      = (sortByDate entries).map sparkPoint := by
    simp [calculate_sparkline_data, pyTailSlice, hpos]
  exact ⟨hcalc, by rw [hcalc, List.length_map, hlen]⟩

/-- Witness for C10 at a one-entry list. -/
theorem c10_witness :
    calculate_sparkline_data [entW1] 0 = (sortByDate [entW1]).map sparkPoint
    ∧ (calculate_sparkline_data [entW1] 0).length = [entW1].length :=
  c10_sparkline_zero_limit [entW1] (by simp)

/- ===================================================================
   C2: the category total calculator.
   =================================================================== -/

/-- C2: `calculate_category_total` returns 0 on an empty entry list; for
a SAVINGS category it returns the value of an entry of maximal date; for
any other type it returns the sum of the entries' values (missing values
counting 0). The Lean model is a total function, so the computation
never fails and has no side effects. -/
theorem c2_category_total (category : Category) (entries : List Entry) :
    (entries = [] → calculate_category_total category entries = 0)
    ∧ (category.type = CategoryType.SPAREN → entries ≠ [] →
        ∃ e ∈ entries,
          calculate_category_total category entries = safe_float_conversion e.value
          ∧ ∀ e' ∈ entries, strLe e'.date e.date = true)
    ∧ (category.type ≠ CategoryType.SPAREN →
        calculate_category_total category entries
          = (entries.map (fun e => safe_float_conversion e.value)).sum) := by
  refine ⟨fun h => by simp [calculate_category_total, h], ?_, ?_⟩
  · intro htype hne
    have hsne : sortByDate entries ≠ [] := by
      intro hnil
      exact hne (List.eq_nil_of_length_eq_zero
        (by rw [← (sortByDate_perm entries).length_eq, hnil]; rfl))
    obtain ⟨e, he⟩ := Option.ne_none_iff_exists'.mp
      (mt List.getLast?_eq_none_iff.mp hsne)
    refine ⟨e, ?_, ?_, ?_⟩
    · exact (sortByDate_perm entries).mem_iff.mp (List.mem_of_mem_getLast? he)
    · simp [calculate_category_total, htype, hne, he]
    · intro e' he'
      exact sorted_getLast_ge (sortByDate_sorted entries) he e'
        ((sortByDate_perm entries).mem_iff.mpr he')
  · intro htype
    by_cases h : entries = []
    · simp [calculate_category_total, h]
    · simp [calculate_category_total, h, htype]

/- ===================================================================
   C7: the profit / percentage-change calculator.
   =================================================================== -/

/-- C7: `calculate_profit_metrics` returns `(null, null)` when the
deposit total is 0 (division by zero avoided, no exception — the model
is a total function); otherwise profit is `v - d` and the percentage is
`round(((v - d) / d) * 100, 2)`. -/
theorem c7_profit_metrics (v d : ℚ) :
    (d = 0 → calculate_profit_metrics v d = (none, none))
    ∧ (d ≠ 0 → calculate_profit_metrics v d
        = (some (v - d), some (pyRound2 ((v - d) / d * 100)))) := by
  constructor
  · intro h
    simp [calculate_profit_metrics, h]
  · intro h
    simp [calculate_profit_metrics, calculate_percentage_change, h]

/- ===================================================================
   Reconciliation lemmas (C3 / C4 / C5).
   =================================================================== -/

theorem hasEntryFor_append (l1 l2 : List Entry) (cid : Nat) (m : String) :
    hasEntryFor (l1 ++ l2) cid m = (hasEntryFor l1 cid m || hasEntryFor l2 cid m) := by
  simp [hasEntryFor, List.any_append]

theorem hasEntryFor_prefix_false {l1 l2 : List Entry} {cid : Nat} {m : String}
    (h : hasEntryFor (l1 ++ l2) cid m = false) : hasEntryFor l1 cid m = false := by
  rw [hasEntryFor_append] at h
  exact (Bool.or_eq_false_iff.mp h).1

theorem filter_of_hasEntryFor_false {es : List Entry} {cid : Nat} {m : String}
    (h : hasEntryFor es cid m = false) :
    es.filter (fun e => e.category_id == cid && e.date == m) = [] := by
  simp only [hasEntryFor, List.any_eq_false] at h
  rw [List.filter_eq_nil_iff]
  exact h

theorem carryDeposit_append {c : Category} (es : List Entry) {e0 : Entry}
    (h : e0.category_id ≠ c.id) : carryDeposit c (es ++ [e0]) = carryDeposit c es := by
  unfold carryDeposit lastEntryFor
  rw [List.filter_append]
  simp [List.filter_cons, h]

theorem reconcileGo_fst_cats (m : String) (cs : List Category) (st : Store)
    (created : List (Nat × Nat)) : (reconcileGo m cs st created).1.cats = st.cats := by
  induction cs generalizing st created with
  | nil => rfl
  | cons c rest ih =>
    by_cases hex : hasEntryFor st.entries c.id m
    · simp only [reconcileGo, hex, if_true]
      exact ih st created
    · simp only [reconcileGo, hex, if_false, Bool.false_eq_true]
      exact ih _ _

theorem reconcileGo_entries_spec (m : String) (cs : List Category) (st : Store)
    (created : List (Nat × Nat)) :
    ∃ new : List Entry,
      (reconcileGo m cs st created).1.entries = st.entries ++ new
      ∧ ∀ e ∈ new, e.date = m ∧ e.value = some 0 ∧ e.auto_generated = true
          ∧ hasEntryFor st.entries e.category_id m = false
          ∧ ∃ c ∈ cs, e.category_id = c.id := by
  induction cs generalizing st created with
  | nil => exact ⟨[], by simp [reconcileGo]⟩
  | cons c rest ih =>
    by_cases hex : hasEntryFor st.entries c.id m
    · simp only [reconcileGo, hex, if_true]
      obtain ⟨new, h1, h2⟩ := ih st created
      refine ⟨new, h1, fun e he => ?_⟩
      obtain ⟨ha, hb, hc, hd, c', hc', he'⟩ := h2 e he
      exact ⟨ha, hb, hc, hd, c', List.mem_cons_of_mem _ hc', he'⟩
    · simp only [reconcileGo, hex, if_false, Bool.false_eq_true]
      set entry0 : Entry :=
        ⟨st.nextId, c.id, m, some 0, carryDeposit c st.entries, none, true⟩ with hentry0
      obtain ⟨new, h1, h2⟩ :=
        ih ⟨st.cats, st.entries ++ [entry0], st.nextId + 1⟩
          (created ++ [(c.id, st.nextId)])
      refine ⟨entry0 :: new, by simpa using h1, fun e he => ?_⟩
      rcases List.mem_cons.mp he with rfl | he'
      · exact ⟨rfl, rfl, rfl, by simpa using hex, c, List.mem_cons_self _ _, rfl⟩
      · obtain ⟨ha, hb, hc, hd, c', hc', he''⟩ := h2 e he'
        exact ⟨ha, hb, hc, hasEntryFor_prefix_false hd, c',
          List.mem_cons_of_mem _ hc', he''⟩

theorem reconcileGo_snd_mono (m : String) (cs : List Category) (st : Store)
    (created : List (Nat × Nat)) :
    ∃ tail, (reconcileGo m cs st created).2 = created ++ tail := by
  induction cs generalizing st created with
  | nil => exact ⟨[], by simp [reconcileGo]⟩
  | cons c rest ih =>
    by_cases hex : hasEntryFor st.entries c.id m
    · simp only [reconcileGo, hex, if_true]
      exact ih st created
    · simp only [reconcileGo, hex, if_false, Bool.false_eq_true]
      obtain ⟨tail, htail⟩ := ih
        ⟨st.cats, st.entries ++
          [⟨st.nextId, c.id, m, some 0, carryDeposit c st.entries, none, true⟩],
         st.nextId + 1⟩ (created ++ [(c.id, st.nextId)])
      exact ⟨(c.id, st.nextId) :: tail, by simpa using htail⟩

theorem reconcileGo_materializes (m : String) (cs : List Category) (st : Store)
    (created : List (Nat × Nat)) :
    ∀ c ∈ cs, hasEntryFor (reconcileGo m cs st created).1.entries c.id m = true := by
  induction cs generalizing st created with
  | nil => intro c hc; simp at hc
  | cons c0 rest ih =>
    intro c hc
    by_cases hex : hasEntryFor st.entries c0.id m
    · simp only [reconcileGo, hex, if_true]
      rcases List.mem_cons.mp hc with rfl | hc'
      · obtain ⟨new, h1, _⟩ := reconcileGo_entries_spec m rest st created
        rw [h1, hasEntryFor_append, hex]
        rfl
      · exact ih st created c hc'
    · simp only [reconcileGo, hex, if_false, Bool.false_eq_true]
      rcases List.mem_cons.mp hc with rfl | hc'
      · set st' : Store :=
          ⟨st.cats, st.entries ++
            [⟨st.nextId, c.id, m, some 0, carryDeposit c st.entries, none, true⟩],
           st.nextId + 1⟩ with hst'
        obtain ⟨new, h1, _⟩ :=
          reconcileGo_entries_spec m rest st' (created ++ [(c.id, st.nextId)])
        rw [h1, hasEntryFor_append, hst']
        have : hasEntryFor st'.entries c.id m = true := by
          rw [hst', hasEntryFor_append]
          simp [hasEntryFor]
        rw [hst'] at this
        rw [this]
        rfl
      · exact ih _ _ c hc'

theorem reconcileGo_skip_all (m : String) (cs : List Category) (st : Store)
    (created : List (Nat × Nat))
    (h : ∀ c ∈ cs, hasEntryFor st.entries c.id m = true) :
    reconcileGo m cs st created = (st, created) := by
  induction cs with
  | nil => rfl
  | cons c rest ih =>
    simp only [reconcileGo, h c (List.mem_cons_self _ _), if_true]
    exact ih fun c' hc' => h c' (List.mem_cons_of_mem _ hc')

/- ===================================================================
   C3: reconciliation is idempotent.
   =================================================================== -/

/-- C3: running the reconciler twice for the same month creates entries
only on the first call — the second call returns an empty result list and
leaves the store unchanged; moreover the first call only appends entries,
each appended entry is for the target month and for a `(category, month)`
pair that previously had no entry, so existing pairs are untouched and the
only transition is missing → materialized. -/
theorem c3_reconcile_idempotent (m : String) (st : Store) :
    (auto_create_entries_for_month m (auto_create_entries_for_month m st).1
      = ((auto_create_entries_for_month m st).1, []))
    ∧ ∃ new, (auto_create_entries_for_month m st).1.entries = st.entries ++ new
        ∧ ∀ e ∈ new, e.date = m ∧ hasEntryFor st.entries e.category_id m = false := by
  constructor
  · have hcats :=
      reconcileGo_fst_cats m (st.cats.filter (fun c => c.auto_create)) st []
    have hmat := reconcileGo_materializes m (st.cats.filter (fun c => c.auto_create)) st []
    unfold auto_create_entries_for_month
    rw [hcats]
    exact reconcileGo_skip_all m _ _ [] fun c hc => hmat c hc
  · obtain ⟨new, h1, h2⟩ :=
      reconcileGo_entries_spec m (st.cats.filter (fun c => c.auto_create)) st []
    exact ⟨new, h1, fun e he => ⟨(h2 e he).1, (h2 e he).2.2.2.1⟩⟩

/-- Witness for C3 (instantiating the idempotence conjunct at the
savings-category fixture store). -/
theorem c3_witness :
    auto_create_entries_for_month "2024-03" (auto_create_entries_for_month "2024-03" stW4).1
      = ((auto_create_entries_for_month "2024-03" stW4).1, []) :=
  (c3_reconcile_idempotent "2024-03" stW4).1

theorem reconcileGo_creates (m : String) (cs : List Category) (st : Store)
    (created : List (Nat × Nat)) (hnodup : (cs.map Category.id).Nodup) :
    (∀ c ∈ cs, hasEntryFor st.entries c.id m = false →
      ∃ eid, ((reconcileGo m cs st created).1.entries.filter
                (fun e => e.category_id == c.id && e.date == m))
              = [⟨eid, c.id, m, some 0, carryDeposit c st.entries, none, true⟩]
            ∧ (c.id, eid) ∈ (reconcileGo m cs st created).2)
    ∧ (∀ pr ∈ (reconcileGo m cs st created).2,
        pr ∈ created ∨ ∃ c ∈ cs, pr.1 = c.id ∧ hasEntryFor st.entries c.id m = false) := by
  induction cs generalizing st created with
  | nil =>
    refine ⟨fun c hc => absurd hc (List.not_mem_nil c), fun pr hpr => Or.inl ?_⟩
    simpa [reconcileGo] using hpr
  | cons c0 rest ih =>
    have hid0 : ∀ c ∈ rest, c.id ≠ c0.id := by
      intro c hc
      have h0 : c0.id ∉ rest.map Category.id := (List.nodup_cons.mp hnodup).1
      intro hcontra
      exact h0 (hcontra ▸ List.mem_map_of_mem Category.id hc)
    by_cases hex : hasEntryFor st.entries c0.id m
    · simp only [reconcileGo, hex, if_true]
      obtain ⟨ih1, ih2⟩ := ih st created (List.nodup_cons.mp hnodup).2
      constructor
      · intro c hc hcf
        rcases List.mem_cons.mp hc with rfl | hc'
        · exact absurd hex (by simp [hcf])
        · exact ih1 c hc' hcf
      · intro pr hpr
        rcases ih2 pr hpr with h | ⟨c, hc, h1, h2⟩
        · exact Or.inl h
        · exact Or.inr ⟨c, List.mem_cons_of_mem _ hc, h1, h2⟩
    · have hexf : hasEntryFor st.entries c0.id m = false := by simpa using hex
      simp only [reconcileGo, hex, if_false, Bool.false_eq_true]
      set entry0 : Entry :=
        ⟨st.nextId, c0.id, m, some 0, carryDeposit c0 st.entries, none, true⟩ with hentry0
      set st' : Store := ⟨st.cats, st.entries ++ [entry0], st.nextId + 1⟩ with hst'
      have hst'entries : st'.entries = st.entries ++ [entry0] := rfl
      have hfalse' : ∀ c ∈ rest, hasEntryFor st.entries c.id m = false →
          hasEntryFor st'.entries c.id m = false := by
        intro c hc hcf
        rw [hst'entries, hasEntryFor_append, hcf]
        simp [hasEntryFor, hentry0]
        exact fun h => absurd h.symm (hid0 c hc)
      have hcarry' : ∀ c ∈ rest, carryDeposit c st'.entries = carryDeposit c st.entries := by
        intro c hc
        rw [hst'entries]
        exact carryDeposit_append st.entries (by simpa [hentry0] using (hid0 c hc).symm)
      have htrue0 : hasEntryFor st'.entries c0.id m = true := by
        rw [hst'entries, hasEntryFor_append]
        simp [hasEntryFor, hentry0]
      obtain ⟨ih1, ih2⟩ :=
        ih st' (created ++ [(c0.id, st.nextId)]) (List.nodup_cons.mp hnodup).2
      constructor
      · intro c hc hcf
        rcases List.mem_cons.mp hc with rfl | hc'
        · refine ⟨st.nextId, ?_, ?_⟩
          · obtain ⟨new, h1, h2⟩ :=
              reconcileGo_entries_spec m rest st' (created ++ [(c.id, st.nextId)])
            rw [h1, hst'entries, List.filter_append, List.filter_append]
            rw [filter_of_hasEntryFor_false hcf]
            have hone : List.filter (fun e => e.category_id == c.id && e.date == m)
                [entry0] = [entry0] := by
              simp [List.filter_cons, hentry0]
            rw [hone]
            have hnone : List.filter (fun e => e.category_id == c.id && e.date == m)
                new = [] := by
              rw [List.filter_eq_nil_iff]
              intro e he
              obtain ⟨hdate, _, _, hmiss, _⟩ := h2 e he
              intro hmatch
              simp only [Bool.and_eq_true, beq_iff_eq] at hmatch
              rw [hmatch.1] at hmiss
              rw [htrue0] at hmiss
              simp at hmiss
            rw [hnone]
            simp [hentry0]
          · obtain ⟨tail, htail⟩ :=
              reconcileGo_snd_mono m rest st' (created ++ [(c.id, st.nextId)])
            rw [htail]
            simp
        · obtain ⟨eid, heq, hmem⟩ := ih1 c hc' (hfalse' c hc' hcf)
          rw [hcarry' c hc'] at heq
          exact ⟨eid, heq, hmem⟩
      · intro pr hpr
        rcases ih2 pr hpr with h | ⟨c, hc, h1, h2⟩
        · rcases List.mem_append.mp h with h' | h'
          · exact Or.inl h'
          · refine Or.inr ⟨c0, List.mem_cons_self _ _, ?_, hexf⟩
            rw [List.mem_singleton.mp h']
        · refine Or.inr ⟨c, List.mem_cons_of_mem _ hc, h1, ?_⟩
          rw [hst'entries] at h2
          exact hasEntryFor_prefix_false h2

/- ===================================================================
   C4: fields of the auto-created entries.
   =================================================================== -/

/-- C4: for every auto-create category with no entry for the target
month, reconciliation creates exactly one entry — value 0,
auto-generated, dated at the target month, with the deposit carried
from the category's chronologically last existing entry when the
category is SAVINGS and that deposit is present (absent otherwise, and
always absent for non-SAVINGS categories, by definition of
`carryDeposit`) — and returns its `(category_id, entry_id)` pair;
every returned pair belongs to an auto-create category that had no
entry for the month, so skipped categories contribute nothing. -/
theorem c4_reconcile_creation (m : String) (st : Store)
    (hnodup : (st.cats.map Category.id).Nodup) :
    (∀ c ∈ st.cats, c.auto_create = true → hasEntryFor st.entries c.id m = false →
      ∃ eid, ((auto_create_entries_for_month m st).1.entries.filter
                (fun e => e.category_id == c.id && e.date == m))
              = [⟨eid, c.id, m, some 0, carryDeposit c st.entries, none, true⟩]
            ∧ (c.id, eid) ∈ (auto_create_entries_for_month m st).2)
    ∧ (∀ pr ∈ (auto_create_entries_for_month m st).2,
        ∃ c ∈ st.cats, pr.1 = c.id ∧ c.auto_create = true
          ∧ hasEntryFor st.entries c.id m = false) := by
  have hnf : ((st.cats.filter (fun c => c.auto_create)).map Category.id).Nodup :=
    hnodup.sublist ((List.filter_sublist _).map Category.id)
  have h := reconcileGo_creates m (st.cats.filter (fun c => c.auto_create)) st [] hnf
  constructor
  · intro c hc hauto hmiss
    exact h.1 c (List.mem_filter.mpr ⟨hc, hauto⟩) hmiss
  · intro pr hpr
    rcases h.2 pr hpr with hin | ⟨c, hc, h1, h2⟩
    · exact absurd hin (List.not_mem_nil pr)
    · exact ⟨c, (List.mem_filter.mp hc).1, h1, (List.mem_filter.mp hc).2, h2⟩

/-- Witness for C4: the savings fixture category gets exactly one
auto-created entry for 2024-03 carrying the deposit of its last entry. -/
theorem c4_witness :
    ∃ eid, (((auto_create_entries_for_month "2024-03" stW4).1.entries.filter
              (fun e => e.category_id == catSparenW.id && e.date == "2024-03"))
            = [⟨eid, catSparenW.id, "2024-03", some 0,
                carryDeposit catSparenW stW4.entries, none, true⟩])
          ∧ (catSparenW.id, eid) ∈ (auto_create_entries_for_month "2024-03" stW4).2 :=
  (c4_reconcile_creation "2024-03" stW4 (by decide)).1 catSparenW
    (by simp [stW4]) (by decide) (by decide)

/- ===================================================================
   C5: failure semantics of reconciliation.
   =================================================================== -/

/-- C5 evidence: with three auto-create categories and the commit for
category 2 failing, the exception propagates out of the loop — category 1
(committed before the failure) keeps its entry, but category 3 is never
processed and the call reports an error instead of the partial result
list.  The claim that a single category's failure "does not abort
processing of the remaining categories" is contradicted. -/
theorem c5_failure_aborts_remaining :
    (auto_create_entries_for_month_withFailures failC5 "2025-03" stC5).2
        = Except.error "commit failed"
    ∧ hasEntryFor
        (auto_create_entries_for_month_withFailures failC5 "2025-03" stC5).1.entries
        1 "2025-03" = true
    ∧ hasEntryFor
        (auto_create_entries_for_month_withFailures failC5 "2025-03" stC5).1.entries
        3 "2025-03" = false := by
  refine ⟨rfl, rfl, rfl⟩

/- ===================================================================
   Timeseries lemmas (C1 / C6).
   =================================================================== -/

theorem entriesUpTo_cons (e : Entry) (es : List Entry) (d : String) :
    entriesUpTo (e :: es) d
      = if strLe e.date d = true then e :: entriesUpTo es d else entriesUpTo es d := by
  simp only [entriesUpTo, List.filter_cons]

theorem lastLeFold_acc (d : String) (es : List Entry) :
    ∀ acc : Option Entry,
      es.foldl (fun a e => if strLe e.date d then some e else a) acc
        = ((entriesUpTo es d).getLast?).elim acc some := by
  induction es with
  | nil => intro acc; simp [entriesUpTo]
  | cons e es ih =>
    intro acc
    rw [List.foldl_cons, ih, entriesUpTo_cons]
    by_cases h : strLe e.date d = true
    · rw [if_pos h, if_pos (by simpa using h)]
      cases hl : (entriesUpTo es d).getLast? with
      | none =>
        rw [List.getLast?_eq_none_iff.mp hl]
        simp
      | some y =>
        have hne : entriesUpTo es d ≠ [] := by
          intro hnil
          rw [hnil] at hl
          simp at hl
        obtain ⟨x, xs, hxs⟩ := List.exists_cons_of_ne_nil hne
        rw [hxs]
        rw [hxs] at hl
        rw [List.getLast?_cons_cons, hl]
        simp
    · rw [if_neg h, if_neg (by simpa using h)]

theorem lastLeFold_eq (es : List Entry) (d : String) :
    lastLeFold es d = (entriesUpTo es d).getLast? := by
  rw [lastLeFold, lastLeFold_acc]
  cases (entriesUpTo es d).getLast? <;> rfl

theorem foldl_filter_sum (p : Entry → Bool) (g : Entry → ℚ) (es : List Entry) :
    ∀ init : ℚ,
      es.foldl (fun s e => if p e then s + g e else s) init
        = init + ((es.filter p).map g).sum := by
  induction es with
  | nil => intro init; simp
  | cons e es ih =>
    intro init
    rw [List.foldl_cons]
    by_cases h : p e
    · rw [if_pos h, ih, List.filter_cons_of_pos h]
      simp [add_assoc]
    · rw [if_neg h, ih, List.filter_cons_of_neg h]

theorem depositsUpTo_cons (e : Entry) (es : List Entry) (d : String) :
    depositsUpTo (e :: es) d
      = if strLe e.date d = true then e.deposit.getD 0 + depositsUpTo es d
        else depositsUpTo es d := by
  simp only [depositsUpTo, entriesUpTo_cons]
  split <;> simp

theorem foldl_deposit_sum (d : String) (es : List Entry) :
    ∀ init : ℚ,
      es.foldl (fun s e =>
          if strLe e.date d && pyTruthy e.deposit then
            s + safe_float_conversion e.deposit
          else s) init
        = init + depositsUpTo es d := by
  induction es with
  | nil => intro init; simp [depositsUpTo, entriesUpTo]
  | cons e es ih =>
    intro init
    rw [List.foldl_cons, depositsUpTo_cons]
    by_cases hd : strLe e.date d = true
    · rw [if_pos hd]
      by_cases ht : pyTruthy e.deposit = true
      · rw [if_pos (by simp [hd, ht]), ih]
        have : safe_float_conversion e.deposit = e.deposit.getD 0 := rfl
        rw [this, add_assoc]
      · have hz : e.deposit.getD 0 = 0 := by
          simpa [pyTruthy] using ht
        rw [if_neg (by simp [ht]), ih, hz, zero_add]
    · rw [if_neg (by simp [hd]), ih, if_neg hd]

theorem timeseriesStep_eq (d : String) (acc : ℚ × ℚ × ℚ)
    (p : Category × List Entry) :
    timeseriesStep d acc p
      = (acc.1 + contribCombined p.1 p.2 d,
         acc.2.1 + contribSparen p.1 p.2 d,
         acc.2.2 + contribDeposits p.1 p.2 d) := by
  obtain ⟨a1, a2, a3⟩ := acc
  obtain ⟨c, es⟩ := p
  by_cases hu : c.unit = "€"
  · by_cases ht : c.type = CategoryType.SPAREN
    · simp only [timeseriesStep, contribCombined, contribSparen, contribDeposits,
        hu, ht, not_true_eq_false, if_false, if_true, and_self, ne_eq,
        not_false_eq_true]
      rw [lastLeFold_eq]
      cases hlast : (entriesUpTo es d).getLast? with
      | none =>
        simp only [asOfValue, hlast, Option.elim]
        rw [foldl_deposit_sum]
        simp
      | some e =>
        simp only [asOfValue, hlast, Option.elim]
        rw [foldl_deposit_sum]
    · simp only [timeseriesStep, contribCombined, contribSparen, contribDeposits,
        hu, ht, not_true_eq_false, if_false, and_false, ne_eq, not_false_eq_true,
        if_true]
      rw [foldl_filter_sum]
      simp [cumulativeValue, entriesUpTo]
  · simp only [timeseriesStep, contribCombined, contribSparen, contribDeposits, hu,
      ne_eq, not_false_eq_true, if_true, false_and, if_false]
    simp

theorem foldl_timeseriesStep (d : String) (cm : List (Category × List Entry)) :
    ∀ acc : ℚ × ℚ × ℚ,
      cm.foldl (timeseriesStep d) acc
        = (acc.1 + (cm.map (fun p => contribCombined p.1 p.2 d)).sum,
           acc.2.1 + (cm.map (fun p => contribSparen p.1 p.2 d)).sum,
           acc.2.2 + (cm.map (fun p => contribDeposits p.1 p.2 d)).sum) := by
  induction cm with
  | nil => intro acc; simp
  | cons p cm ih =>
    intro acc
    rw [List.foldl_cons, timeseriesStep_eq, ih]
    simp [add_assoc]

theorem dateTotals_eq (cm : List (Category × List Entry)) (d : String) :
    dateTotals cm d
      = ((cm.map (fun p => contribCombined p.1 p.2 d)).sum,
         (cm.map (fun p => contribSparen p.1 p.2 d)).sum,
         (cm.map (fun p => contribDeposits p.1 p.2 d)).sum) := by
  rw [dateTotals, foldl_timeseriesStep]
  simp

theorem dictInsert_fresh {κ β : Type} [DecidableEq κ] {k : κ} (v : β)
    {mp : List (κ × β)} (h : k ∉ mp.map Prod.fst) :
    dictInsert k v mp = mp ++ [(k, v)] := by
  by_cases hany : mp.any (fun p => p.1 = k) = true
  · exfalso
    obtain ⟨p, hp, hpk⟩ : ∃ p ∈ mp, p.1 = k := by simpa using hany
    exact h (hpk ▸ List.mem_map_of_mem Prod.fst hp)
  · simp [dictInsert, hany]

theorem mem_dictInsert {κ β : Type} [DecidableEq κ] {k : κ} {v : β}
    {mp : List (κ × β)} {x : κ × β} (h : x ∈ dictInsert k v mp) :
    x ∈ mp ∨ x = (k, v) := by
  unfold dictInsert at h
  split at h
  · obtain ⟨p, hp, hpx⟩ := List.mem_map.mp h
    by_cases hpk : p.1 = k
    · rw [if_pos hpk] at hpx
      exact Or.inr hpx.symm
    · rw [if_neg hpk] at hpx
      exact Or.inl (hpx ▸ hp)
  · rcases List.mem_append.mp h with h' | h'
    · exact Or.inl h'
    · exact Or.inr (List.mem_singleton.mp h')

theorem mem_timeseriesCM (st : Store) (sd ed ct : Option String) :
    ∀ p ∈ timeseriesCM st sd ed ct,
      ∃ q ∈ timeseriesPairs st sd ed ct, p = (q.1, sortByDate q.2) := by
  have hgen : ∀ (l : List (Category × List Entry))
      (init : List (Nat × (Category × List Entry))) x,
      x ∈ l.foldl (fun mp p => dictInsert p.1.id (p.1, sortByDate p.2) mp) init →
      x ∈ init ∨ ∃ q ∈ l, x = (q.1.id, (q.1, sortByDate q.2)) := by
    intro l
    induction l with
    | nil => intro init x hx; exact Or.inl hx
    | cons q l ih =>
      intro init x hx
      rw [List.foldl_cons] at hx
      rcases ih _ x hx with h | ⟨q', hq', hx'⟩
      · rcases mem_dictInsert h with h' | h'
        · exact Or.inl h'
        · exact Or.inr ⟨q, List.mem_cons_self _ _, h'⟩
      · exact Or.inr ⟨q', List.mem_cons_of_mem _ hq', hx'⟩
  intro p hp
  obtain ⟨x, hx, hxp⟩ := List.mem_map.mp hp
  rcases hgen (timeseriesPairs st sd ed ct) [] x hx with h | ⟨q, hq, hxq⟩
  · exact absurd h (List.not_mem_nil x)
  · exact ⟨q, hq, by rw [← hxp, hxq]⟩

theorem timeseriesAxis_nodup (st : Store) (sd ed ct : Option String) :
    (timeseriesAxis st sd ed ct).Nodup :=
  ((List.perm_insertionSort strLeP _).symm).nodup (List.nodup_dedup _)

theorem timeseriesAxis_sorted (st : Store) (sd ed ct : Option String) :
    List.Pairwise strLeP (timeseriesAxis st sd ed ct) :=
  List.sorted_insertionSort strLeP _

theorem foldl_buildStep (cm : List (Category × List Entry)) (axis : List String) :
    ∀ (ad : List (String × TPoint)) (sd : List (String × SparenPoint)),
      axis.Nodup →
      (∀ d ∈ axis, d ∉ ad.map Prod.fst) →
      (∀ d ∈ axis, d ∉ sd.map Prod.fst) →
      axis.foldl (buildStep cm) (ad, sd)
        = (ad ++ axis.map (fun d => (d, (⟨d, (dateTotals cm d).1⟩ : TPoint))),
           sd ++ (axis.filter (fun d =>
               decide (0 < (dateTotals cm d).2.1)
               || decide (0 < (dateTotals cm d).2.2))).map
             (fun d => (d, (⟨d, (dateTotals cm d).2.1, (dateTotals cm d).2.2,
                 (dateTotals cm d).2.1 - (dateTotals cm d).2.2⟩ : SparenPoint)))) := by
  induction axis with
  | nil => intro ad sd _ _ _; simp
  | cons d axis ih =>
    intro ad sd hnodup had hsd
    rw [List.foldl_cons]
    have hdad : d ∉ ad.map Prod.fst := had d (List.mem_cons_self _ _)
    have hdsd : d ∉ sd.map Prod.fst := hsd d (List.mem_cons_self _ _)
    have hdax : d ∉ axis := (List.nodup_cons.mp hnodup).1
    have hstep : buildStep cm (ad, sd) d
        = (ad ++ [(d, (⟨d, (dateTotals cm d).1⟩ : TPoint))],
           if 0 < (dateTotals cm d).2.1 ∨ 0 < (dateTotals cm d).2.2 then
             sd ++ [(d, (⟨d, (dateTotals cm d).2.1, (dateTotals cm d).2.2,
                 (dateTotals cm d).2.1 - (dateTotals cm d).2.2⟩ : SparenPoint))]
           else sd) := by
      unfold buildStep
      dsimp only
      rw [dictInsert_fresh _ hdad]
      split
      · rw [dictInsert_fresh _ hdsd]
      · rfl
    rw [hstep]
    by_cases hcond : 0 < (dateTotals cm d).2.1 ∨ 0 < (dateTotals cm d).2.2
    · rw [if_pos hcond]
      rw [ih _ _ (List.nodup_cons.mp hnodup).2
        (by
          intro d' hd'
          rw [List.map_append]
          simp only [List.mem_append, List.map_cons, List.map_nil]
          rintro (h | h)
          · exact had d' (List.mem_cons_of_mem _ hd') h
          · simp only [List.mem_singleton] at h
            exact hdax (h ▸ hd'))
        (by
          intro d' hd'
          rw [List.map_append]
          simp only [List.mem_append, List.map_cons, List.map_nil]
          rintro (h | h)
          · exact hsd d' (List.mem_cons_of_mem _ hd') h
          · simp only [List.mem_singleton] at h
            exact hdax (h ▸ hd'))]
      rw [List.filter_cons_of_pos (by simpa using hcond)]
      simp [List.append_assoc]
    · rw [if_neg hcond]
      rw [ih _ _ (List.nodup_cons.mp hnodup).2
        (by
          intro d' hd'
          rw [List.map_append]
          simp only [List.mem_append, List.map_cons, List.map_nil]
          rintro (h | h)
          · exact had d' (List.mem_cons_of_mem _ hd') h
          · simp only [List.mem_singleton] at h
            exact hdax (h ▸ hd'))
        (fun d' hd' => hsd d' (List.mem_cons_of_mem _ hd'))]
      rw [List.filter_cons_of_neg (by simpa using hcond)]
      simp [List.append_assoc]

theorem map_snd_pair {α β : Type} (f : α → β) (l : List α) :
    (l.map (fun d => (d, f d))).map Prod.snd = l.map f := by
  simp

theorem timeseries_totalValueData_eq (st : Store) :
    (get_dashboard_timeseries st none none none).totalValueData
      = (timeseriesAxis st none none none).map
          (fun d => (⟨d, (dateTotals (timeseriesCM st none none none) d).1⟩ : TPoint)) := by
  unfold get_dashboard_timeseries
  dsimp only
  rw [foldl_buildStep _ _ [] [] (timeseriesAxis_nodup st none none none)
    (by simp) (by simp)]
  dsimp only
  rw [List.nil_append, map_snd_pair]
  exact List.Sorted.insertionSort_eq
    (List.pairwise_map.mpr (timeseriesAxis_sorted st none none none))

theorem timeseries_sparenData_eq (st : Store) :
    (get_dashboard_timeseries st none none none).sparenData
      = ((timeseriesAxis st none none none).filter (fun d =>
            decide (0 < (dateTotals (timeseriesCM st none none none) d).2.1)
            || decide (0 < (dateTotals (timeseriesCM st none none none) d).2.2))).map
          (fun d => (⟨d, (dateTotals (timeseriesCM st none none none) d).2.1,
              (dateTotals (timeseriesCM st none none none) d).2.2,
              (dateTotals (timeseriesCM st none none none) d).2.1
                - (dateTotals (timeseriesCM st none none none) d).2.2⟩ : SparenPoint)) := by
  unfold get_dashboard_timeseries
  dsimp only
  rw [foldl_buildStep _ _ [] [] (timeseriesAxis_nodup st none none none)
    (by simp) (by simp)]
  dsimp only
  rw [List.nil_append, map_snd_pair]
  exact List.Sorted.insertionSort_eq
    (List.pairwise_map.mpr
      ((timeseriesAxis_sorted st none none none).sublist (List.filter_sublist _)))

theorem asOfValue_spec {es : List Entry} (hs : List.Sorted entryLe es) (d : String) :
    (entriesUpTo es d = [] ∧ asOfValue es d = 0)
    ∨ ∃ e ∈ es, strLe e.date d = true
        ∧ asOfValue es d = safe_float_conversion e.value
        ∧ ∀ e' ∈ es, strLe e'.date d = true → strLe e'.date e.date = true := by
  cases hlast : (entriesUpTo es d).getLast? with
  | none =>
    exact Or.inl ⟨List.getLast?_eq_none_iff.mp hlast, by simp [asOfValue, hlast]⟩
  | some e =>
    right
    have hmem : e ∈ entriesUpTo es d := List.mem_of_mem_getLast? hlast
    have hfilter := List.mem_filter.mp hmem
    refine ⟨e, hfilter.1, by simpa using hfilter.2, by simp [asOfValue, hlast], ?_⟩
    intro e' he' hd'
    have h1 : e' ∈ entriesUpTo es d := List.mem_filter.mpr ⟨he', by simpa using hd'⟩
    have hsorted' : List.Sorted entryLe (entriesUpTo es d) :=
      hs.sublist (List.filter_sublist _)
    exact sorted_getLast_ge hsorted' hlast e' h1

/- ===================================================================
   C1: the timeseries merger's per-date decomposition.
   =================================================================== -/

/-- C1: with no filters, (i) the combined series has exactly one
`{date, value}` point per merged-axis date, whose value is the sum over
the category map of each category's contribution — 0 for categories
whose unit is not "€", the carry-forward as-of value for SAVINGS
categories, the cumulative sum of values up to the date for other
categories (`contribCombined`); (ii) the per-date loop's three running
totals are the sums of `contribCombined`, `contribSparen` (as-of values
of currency SAVINGS categories only) and `contribDeposits` (deposits up
to the date of currency SAVINGS categories only); (iii) on every
category of the map, the as-of value is the value of an entry of
greatest date ≤ d, or 0 when no entry is dated ≤ d. -/
theorem c1_timeseries_merge (st : Store) :
    ((get_dashboard_timeseries st none none none).totalValueData
      = (timeseriesAxis st none none none).map (fun d =>
          (⟨d, ((timeseriesCM st none none none).map
                (fun p => contribCombined p.1 p.2 d)).sum⟩ : TPoint)))
    ∧ (∀ d, dateTotals (timeseriesCM st none none none) d
        = (((timeseriesCM st none none none).map
              (fun p => contribCombined p.1 p.2 d)).sum,
           sparenValueAt st d, sparenDepositsAt st d))
    ∧ (∀ p ∈ timeseriesCM st none none none, ∀ d,
        (entriesUpTo p.2 d = [] ∧ asOfValue p.2 d = 0)
        ∨ ∃ e ∈ p.2, strLe e.date d = true
            ∧ asOfValue p.2 d = safe_float_conversion e.value
            ∧ ∀ e' ∈ p.2, strLe e'.date d = true → strLe e'.date e.date = true) := by
  refine ⟨?_, ?_, ?_⟩
  · rw [timeseries_totalValueData_eq]
    simp only [dateTotals_eq]
  · intro d
    rw [dateTotals_eq]
    rfl
  · intro p hp d
    obtain ⟨q, _, hpq⟩ := mem_timeseriesCM st none none none p hp
    have hsorted : List.Sorted entryLe p.2 := by
      rw [hpq]
      exact sortByDate_sorted q.2
    exact asOfValue_spec hsorted d

/- ===================================================================
   C6: the savings-series emission condition.
   =================================================================== -/

/-- C6 (amended): with no filters, the savings-only series has a point
for an axis date exactly when the running savings value or the running
savings deposit total at that date is strictly positive (not merely
non-zero), and each emitted point is
`{date, value, deposits, profit = value - deposits}`. -/
theorem c6_sparen_emission_amended (st : Store) :
    (get_dashboard_timeseries st none none none).sparenData
      = ((timeseriesAxis st none none none).filter (fun d =>
            decide (0 < sparenValueAt st d)
            || decide (0 < sparenDepositsAt st d))).map
          (fun d => (⟨d, sparenValueAt st d, sparenDepositsAt st d,
              sparenValueAt st d - sparenDepositsAt st d⟩ : SparenPoint)) := by
  rw [timeseries_sparenData_eq]
  have h21 : ∀ d,
      (dateTotals (timeseriesCM st none none none) d).2.1 = sparenValueAt st d := by
    intro d
    rw [dateTotals_eq]
    rfl
  have h22 : ∀ d,
      (dateTotals (timeseriesCM st none none none) d).2.2 = sparenDepositsAt st d := by
    intro d
    rw [dateTotals_eq]
    rfl
  simp only [h21, h22]

/-- Counterexample for C6 as stated: at the fixture store the running
savings value on the only axis date is −5, which is non-zero, yet the
emitted savings series is empty — the code tests `> 0`, not `≠ 0`. -/
theorem c6_counterexample :
    timeseriesAxis stC6 none none none = ["2024-01"]
    ∧ sparenValueAt stC6 "2024-01" = -5
    ∧ ¬((-5 : ℚ) = 0)
    ∧ (get_dashboard_timeseries stC6 none none none).sparenData = [] := by
  have hcm : timeseriesCM stC6 none none none
      = [(⟨1, "S", "sparen", "€", false⟩,
          [⟨1, 1, "2024-01", some (-5), none, none, false⟩])] := by decide
  have hstr : strLe "2024-01" "2024-01" = true := by decide
  have haxis : timeseriesAxis stC6 none none none = ["2024-01"] := by decide
  have hasof : asOfValue [⟨1, 1, "2024-01", some (-5), none, none, false⟩]
      "2024-01" = -5 := by
    simp [asOfValue, entriesUpTo, List.filter_cons, hstr, safe_float_conversion]
  have hdep : depositsUpTo [⟨1, 1, "2024-01", some (-5), none, none, false⟩]
      "2024-01" = 0 := by
    simp [depositsUpTo, entriesUpTo, List.filter_cons, hstr]
  have hsv : sparenValueAt stC6 "2024-01" = -5 := by
    simp [sparenValueAt, hcm, contribSparen, CategoryType.SPAREN, hasof]
  have hsd : sparenDepositsAt stC6 "2024-01" = 0 := by
    simp [sparenDepositsAt, hcm, contribDeposits, CategoryType.SPAREN, hdep]
  refine ⟨haxis, hsv, by norm_num, ?_⟩
  rw [timeseries_sparenData_eq, haxis]
  have h1 : (dateTotals (timeseriesCM stC6 none none none) "2024-01").2.1 = -5 := by
    rw [dateTotals_eq]
    exact hsv
  have h2 : (dateTotals (timeseriesCM stC6 none none none) "2024-01").2.2 = 0 := by
    rw [dateTotals_eq]
    exact hsd
  have hcond : (decide (0 < (dateTotals (timeseriesCM stC6 none none none) "2024-01").2.1)
      || decide (0 < (dateTotals (timeseriesCM stC6 none none none) "2024-01").2.2))
        = false := by
    rw [h1, h2]
    norm_num
  rw [List.filter_cons_of_neg (by simp [hcond])]
  simp

/- ===================================================================
   Bucketizer lemmas (C8).
   =================================================================== -/

theorem lookup_cons_self {β : Type} (k : String) (b : β) (l : List (String × β)) :
    ((k, b) :: l).lookup k = some b := by
  simp [List.lookup]

theorem lookup_cons_ne {β : Type} {k k' : String} (b : β) (l : List (String × β))
    (h : k ≠ k') : ((k', b) :: l).lookup k = l.lookup k := by
  have hb : (k == k') = false := by simpa using h
  simp [List.lookup, hb]

theorem lookup_append_chain {β : Type} (l1 l2 : List (String × β)) (k : String) :
    (l1 ++ l2).lookup k
      = match l1.lookup k with
        | some b => some b
        | none => l2.lookup k := by
  induction l1 with
  | nil => simp
  | cons p t ih =>
    obtain ⟨k', b'⟩ := p
    by_cases h : k = k'
    · subst h
      rw [List.cons_append, lookup_cons_self, lookup_cons_self]
    · rw [List.cons_append, lookup_cons_ne _ _ h, lookup_cons_ne _ _ h, ih]

theorem lookup_eq_none_iff_keys {β : Type} (l : List (String × β)) (k : String) :
    l.lookup k = none ↔ k ∉ l.map Prod.fst := by
  induction l with
  | nil => simp
  | cons p t ih =>
    obtain ⟨k', b'⟩ := p
    by_cases h : k = k'
    · subst h
      rw [lookup_cons_self]
      simp
    · rw [lookup_cons_ne _ _ h, ih]
      simp [h]

theorem getD_set_self_q (l : List ℚ) {i : Nat} (h : i < l.length) (v : ℚ) :
    (l.set i v).getD i 0 = v := by
  rw [List.getD_eq_getElem?_getD, List.getElem?_set_self]
  · simp [List.getElem?_eq_getElem, h]
  · exact h

theorem getD_set_ne_q (l : List ℚ) {i j : Nat} (h : i ≠ j) (v : ℚ) :
    (l.set i v).getD j 0 = l.getD j 0 := by
  rw [List.getD_eq_getElem?_getD, List.getD_eq_getElem?_getD, List.getElem?_set_ne h]

theorem pyAddAt_valid (l : List ℚ) (m : Nat) (v : ℚ) (h1 : 1 ≤ m)
    (h2 : m ≤ l.length) :
    pyAddAt l ((m : ℤ) - 1) v = some (l.set (m - 1) (l.getD (m - 1) 0 + v)) := by
  unfold pyAddAt
  dsimp only
  have hneg : ¬((m : ℤ) - 1 < 0) := by omega
  simp only [if_neg hneg]
  rw [if_pos (show (0:ℤ) ≤ (m : ℤ) - 1 ∧ (m : ℤ) - 1 < (l.length : ℤ) by
    constructor <;> omega)]
  have ht : ((m : ℤ) - 1).toNat = m - 1 := by omega
  rw [ht]

theorem updateYears_spec (k : String) (m : Nat) (v dep : ℚ)
    (years : List (String × YearBucket)) (b : YearBucket)
    (hlook : years.lookup k = some b) (hv : b.values.length = 12)
    (hd : b.deposits.length = 12) (hm1 : 1 ≤ m) (hm2 : m ≤ 12) :
    ∃ years', updateYears k m v dep years = some years'
      ∧ years'.map Prod.fst = years.map Prod.fst
      ∧ years'.lookup k = some ⟨b.values.set (m - 1) (b.values.getD (m - 1) 0 + v),
          b.deposits.set (m - 1) (b.deposits.getD (m - 1) 0 + dep)⟩
      ∧ (∀ k', k' ≠ k → years'.lookup k' = years.lookup k')
      ∧ (∀ p ∈ years', p ∈ years
          ∨ p = (k, ⟨b.values.set (m - 1) (b.values.getD (m - 1) 0 + v),
                b.deposits.set (m - 1) (b.deposits.getD (m - 1) 0 + dep)⟩)) := by
  induction years with
  | nil => simp at hlook
  | cons p t ih =>
    obtain ⟨k', b'⟩ := p
    by_cases h : k' = k
    · subst h
      rw [lookup_cons_self] at hlook
      have hb : b' = b := by simpa using hlook
      subst hb
      refine ⟨(k', ⟨b'.values.set (m - 1) (b'.values.getD (m - 1) 0 + v),
          b'.deposits.set (m - 1) (b'.deposits.getD (m - 1) 0 + dep)⟩) :: t, ?_, ?_, ?_, ?_, ?_⟩
      · unfold updateYears
        rw [if_pos rfl, pyAddAt_valid _ m v hm1 (by rw [hv]; exact hm2),
          pyAddAt_valid _ m dep hm1 (by rw [hd]; exact hm2)]
      · simp
      · rw [lookup_cons_self]
      · intro k'' hk''
        rw [lookup_cons_ne _ _ hk'', lookup_cons_ne _ _ hk'']
      · intro p hp
        rcases List.mem_cons.mp hp with rfl | hp'
        · exact Or.inr rfl
        · exact Or.inl (List.mem_cons_of_mem _ hp')
    · rw [lookup_cons_ne _ _ (fun hc => h hc.symm)] at hlook
      obtain ⟨t', ht', hkeys, hlk, hother, hmem⟩ := ih hlook
      refine ⟨(k', b') :: t', ?_, ?_, ?_, ?_, ?_⟩
      · unfold updateYears
        rw [if_neg h, ht']
        rfl
      · simp [hkeys]
      · rw [lookup_cons_ne _ _ (fun hc => h hc.symm)]
        exact hlk
      · intro k'' hk''
        by_cases hk2 : k'' = k'
        · subst hk2
          rw [lookup_cons_self, lookup_cons_self]
        · rw [lookup_cons_ne _ _ hk2, lookup_cons_ne _ _ hk2]
          exact hother k'' hk''
      · intro p hp
        rcases List.mem_cons.mp hp with rfl | hp'
        · exact Or.inl (List.mem_cons_self _ _)
        · rcases hmem p hp' with h' | h'
          · exact Or.inl (List.mem_cons_of_mem _ h')
          · exact Or.inr h'

theorem bucketValueSum_cons (fy ty : Option Nat) (e : Entry) (es : List Entry)
    (k : String) (m : Nat) :
    bucketValueSum fy ty (e :: es) k m
      = (if entryYearKey fy ty e = some (k, m) then e.value.getD 0 else 0)
        + bucketValueSum fy ty es k m := by
  simp [bucketValueSum]

theorem bucketDepositSum_cons (fy ty : Option Nat) (e : Entry) (es : List Entry)
    (k : String) (m : Nat) :
    bucketDepositSum fy ty (e :: es) k m
      = (if entryYearKey fy ty e = some (k, m) then e.deposit.getD 0 else 0)
        + bucketDepositSum fy ty es k m := by
  simp [bucketDepositSum]

theorem sqlPrefilter_subset (fy ty : Option Nat) (es : List Entry) :
    ∀ e ∈ sqlPrefilter fy ty es, e ∈ es := by
  intro e he
  unfold sqlPrefilter at he
  rcases fy with _ | n <;> rcases ty with _ | n2 <;> dsimp only at he <;>
    (try split_ifs at he) <;>
    first
      | exact he
      | exact (List.mem_filter.mp he).1
      | exact (List.mem_filter.mp (List.mem_filter.mp he).1).1

theorem monthlyProcessed_subset (fy ty : Option Nat) (es : List Entry) :
    ∀ e ∈ monthlyProcessed fy ty es, e ∈ es := by
  intro e he
  exact sqlPrefilter_subset fy ty es e
    ((sortByDate_perm (sqlPrefilter fy ty es)).mem_iff.mp he)

theorem mem_of_lookup_eq_some {β : Type} {l : List (String × β)} {k : String} {b : β}
    (h : l.lookup k = some b) : (k, b) ∈ l := by
  induction l with
  | nil => simp at h
  | cons p t ih =>
    obtain ⟨k', b'⟩ := p
    by_cases hk : k = k'
    · subst hk
      rw [lookup_cons_self] at h
      have hb : b' = b := by simpa using h
      subst hb
      exact List.mem_cons_self _ _
    · rw [lookup_cons_ne _ _ hk] at h
      exact List.mem_cons_of_mem _ (ih h)

theorem ensureKey_spec (years : List (String × YearBucket)) (ys : String)
    (hnodup : (years.map Prod.fst).Nodup)
    (hlen : ∀ p ∈ years, p.2.values.length = 12 ∧ p.2.deposits.length = 12)
    (years1 : List (String × YearBucket))
    (hy1 : years1 = if (years.lookup ys).isNone then
        years ++ [(ys, ⟨List.replicate 12 0, List.replicate 12 0⟩)] else years) :
    ∃ b1, years1.lookup ys = some b1
      ∧ b1.values.length = 12 ∧ b1.deposits.length = 12
      ∧ (years1.map Prod.fst).Nodup
      ∧ (∀ p ∈ years1, p.2.values.length = 12 ∧ p.2.deposits.length = 12)
      ∧ (∀ k, k ≠ ys → years1.lookup k = years.lookup k)
      ∧ (∀ m, 1 ≤ m → m ≤ 12 →
          b1.values.getD (m - 1) 0 = valLookup years ys m
          ∧ b1.deposits.getD (m - 1) 0 = depLookup years ys m)
      ∧ (∀ k, (years1.lookup k).isSome ↔ (years.lookup k).isSome ∨ k = ys) := by
  by_cases hNone : years.lookup ys = none
  · have hy1' : years1 = years ++ [(ys, ⟨List.replicate 12 0, List.replicate 12 0⟩)] := by
      rw [hy1, if_pos (by simp [hNone])]
    have hmemkeys : ys ∉ years.map Prod.fst := (lookup_eq_none_iff_keys years ys).mp hNone
    refine ⟨⟨List.replicate 12 0, List.replicate 12 0⟩, ?_, by simp, by simp, ?_, ?_, ?_, ?_, ?_⟩
    · rw [hy1', lookup_append_chain, hNone, lookup_cons_self]
    · rw [hy1', List.map_append]
      simp only [List.map_cons, List.map_nil]
      rw [List.nodup_append]
      exact ⟨hnodup, List.nodup_singleton ys, by simpa using hmemkeys⟩
    · intro p hp
      rw [hy1'] at hp
      rcases List.mem_append.mp hp with h | h
      · exact hlen p h
      · rw [List.mem_singleton.mp h]
        simp
    · intro k hk
      rw [hy1', lookup_append_chain]
      cases hc : years.lookup k with
      | some b => rfl
      | none => rw [lookup_cons_ne _ _ hk]; rfl
    · intro m hm1 hm2
      have hlt : m - 1 < 12 := by omega
      constructor <;>
        · simp [valLookup, depLookup, hNone, List.getD_eq_getElem?_getD,
            List.getElem?_replicate, hlt]
          interval_cases m <;> rfl
    · intro k
      rw [hy1', lookup_append_chain]
      by_cases hk : k = ys
      · subst hk
        rw [hNone, lookup_cons_self]
        simp
      · cases hc : years.lookup k with
        | some b => simp
        | none =>
          rw [lookup_cons_ne _ _ hk]
          simp [hk]
  · obtain ⟨b1, hb1⟩ := Option.ne_none_iff_exists'.mp hNone
    have hy1' : years1 = years := by
      rw [hy1, if_neg (by simp [hb1])]
    have hmem : (ys, b1) ∈ years := mem_of_lookup_eq_some hb1
    refine ⟨b1, by rw [hy1']; exact hb1, (hlen _ hmem).1, (hlen _ hmem).2,
      by rw [hy1']; exact hnodup, by rw [hy1']; exact hlen, ?_, ?_, ?_⟩
    · intro k _
      rw [hy1']
    · intro m hm1 hm2
      constructor <;> · simp [valLookup, depLookup, hb1]
    · intro k
      rw [hy1']
      by_cases hk : k = ys
      · subst hk
        simp [hb1]
      · simp [hk]

theorem valLookup_of_lookup {years : List (String × YearBucket)} {k : String}
    {b : YearBucket} (m : Nat) (h : years.lookup k = some b) :
    valLookup years k m = b.values.getD (m - 1) 0 := by
  simp [valLookup, h]

theorem depLookup_of_lookup {years : List (String × YearBucket)} {k : String}
    {b : YearBucket} (m : Nat) (h : years.lookup k = some b) :
    depLookup years k m = b.deposits.getD (m - 1) 0 := by
  simp [depLookup, h]

theorem lookup_isSome_iff_keys {β : Type} (l : List (String × β)) (k : String) :
    (l.lookup k).isSome ↔ k ∈ l.map Prod.fst := by
  rw [Option.isSome_iff_ne_none, Ne, lookup_eq_none_iff_keys]
  exact not_not

theorem monthlyGo_skip_step (fy ty : Option Nat) (e : Entry) (rest : List Entry)
    (years : List (String × YearBucket))
    (hkey : entryYearKey fy ty e = none) :
    monthlyGo fy ty (e :: rest) years = monthlyGo fy ty rest years := by
  cases hp : parse_month_string e.date with
  | none =>
    conv_lhs => rw [monthlyGo.eq_def]
    dsimp only
    rw [hp]
  | some ym =>
    obtain ⟨y, m0⟩ := ym
    simp only [entryYearKey, hp] at hkey
    have hk : monthKeeps fy ty y = false := by
      by_cases h : monthKeeps fy ty y = true
      · rw [if_pos h] at hkey
        simp at hkey
      · simpa using h
    conv_lhs => rw [monthlyGo.eq_def]
    dsimp only
    rw [hp]
    dsimp only
    cases hf : fyDrops fy y with
    | true => rw [if_pos rfl]
    | false =>
      have ht : tyDrops ty y = true := by
        simp [monthKeeps, hf] at hk
        exact hk
      rw [if_neg (by simp), if_pos ht]

theorem monthlyGo_keep_step (fy ty : Option Nat) (e : Entry) (rest : List Entry)
    (years : List (String × YearBucket)) (y m0 : Nat)
    (hp : parse_month_string e.date = some (y, m0))
    (hf : fyDrops fy y = false) (ht : tyDrops ty y = false) :
    monthlyGo fy ty (e :: rest) years
      = match updateYears (natToStr y) m0 (e.value.getD 0) (e.deposit.getD 0)
            (if (years.lookup (natToStr y)).isNone then
              years ++ [(natToStr y, ⟨List.replicate 12 0, List.replicate 12 0⟩)]
            else years) with
        | some years2 => monthlyGo fy ty rest years2
        | none => .error "list index out of range" := by
  conv_lhs => rw [monthlyGo.eq_def]
  dsimp only
  rw [hp]
  dsimp only
  rw [if_neg (by simp [hf]), if_neg (by simp [ht])]

theorem entryYearKey_inv {fy ty : Option Nat} {e : Entry} {k : String} {m0 : Nat}
    (h : entryYearKey fy ty e = some (k, m0)) :
    ∃ y, parse_month_string e.date = some (y, m0) ∧ monthKeeps fy ty y = true
      ∧ k = natToStr y := by
  unfold entryYearKey at h
  cases hpm : parse_month_string e.date with
  | none => rw [hpm] at h; simp at h
  | some ym =>
    obtain ⟨y, m1⟩ := ym
    rw [hpm] at h
    dsimp only at h
    by_cases hk : monthKeeps fy ty y = true
    · rw [if_pos hk] at h
      obtain ⟨h1, h2⟩ : natToStr y = k ∧ m1 = m0 := by simpa using h
      exact ⟨y, by rw [h2], hk, h1.symm⟩
    · rw [if_neg hk] at h
      simp at h

theorem monthlyGo_spec (fy ty : Option Nat) (es : List Entry) :
    ∀ years : List (String × YearBucket),
      (∀ e ∈ es, ∀ y m, parse_month_string e.date = some (y, m) → 1 ≤ m ∧ m ≤ 12) →
      (years.map Prod.fst).Nodup →
      (∀ p ∈ years, p.2.values.length = 12 ∧ p.2.deposits.length = 12) →
      ∃ out, monthlyGo fy ty es years = Except.ok out
        ∧ (out.map Prod.fst).Nodup
        ∧ (∀ p ∈ out, p.2.values.length = 12 ∧ p.2.deposits.length = 12)
        ∧ (∀ k m, 1 ≤ m → m ≤ 12 →
            valLookup out k m = valLookup years k m + bucketValueSum fy ty es k m
            ∧ depLookup out k m = depLookup years k m + bucketDepositSum fy ty es k m)
        ∧ (∀ k, (out.lookup k).isSome
            ↔ (years.lookup k).isSome
              ∨ ∃ e ∈ es, ∃ m', entryYearKey fy ty e = some (k, m')) := by
  induction es with
  | nil =>
    intro years _ hnodup hlen
    exact ⟨years, rfl, hnodup, hlen,
      fun k m _ _ => ⟨by simp [bucketValueSum], by simp [bucketDepositSum]⟩,
      fun k => by simp⟩
  | cons e rest ih =>
    intro years hm hnodup hlen
    have hmrest : ∀ e' ∈ rest, ∀ y m, parse_month_string e'.date = some (y, m) →
        1 ≤ m ∧ m ≤ 12 := fun e' he' => hm e' (List.mem_cons_of_mem _ he')
    by_cases hkeynone : entryYearKey fy ty e = none
    · obtain ⟨out, hout, h1, h2, h3, h4⟩ := ih years hmrest hnodup hlen
      refine ⟨out, by rw [monthlyGo_skip_step fy ty e rest years hkeynone]; exact hout,
        h1, h2, ?_, ?_⟩
      · intro k m hm1 hm2
        obtain ⟨hv, hd⟩ := h3 k m hm1 hm2
        rw [bucketValueSum_cons, bucketDepositSum_cons, hkeynone]
        constructor
        · rw [hv]; simp
        · rw [hd]; simp
      · intro k
        rw [h4 k]
        constructor
        · rintro (h | ⟨e', he', hex⟩)
          · exact Or.inl h
          · exact Or.inr ⟨e', List.mem_cons_of_mem _ he', hex⟩
        · rintro (h | ⟨e', he', hex⟩)
          · exact Or.inl h
          · rcases List.mem_cons.mp he' with rfl | he''
            · obtain ⟨m', hm'⟩ := hex
              rw [hkeynone] at hm'
              exact absurd hm' (by simp)
            · exact Or.inr ⟨e', he'', hex⟩
    · obtain ⟨p0, hp0⟩ := Option.ne_none_iff_exists'.mp hkeynone
      obtain ⟨ys0, m0⟩ := p0
      obtain ⟨y, hp, hkeep, hkeq⟩ := entryYearKey_inv hp0
      subst hkeq
      obtain ⟨hm01, hm02⟩ := hm e (List.mem_cons_self _ _) y m0 hp
      have hf : fyDrops fy y = false := by
        have h' := hkeep
        simp [monthKeeps] at h'
        exact h'.1
      have ht : tyDrops ty y = false := by
        have h' := hkeep
        simp [monthKeeps] at h'
        exact h'.2
      set ys := natToStr y with hysdef
      set years1 := (if (years.lookup ys).isNone then
          years ++ [(ys, (⟨List.replicate 12 0, List.replicate 12 0⟩ : YearBucket))]
        else years) with hy1
      obtain ⟨b1, hb1, hb1v, hb1d, hnodup1, hlen1, hother1, hinit1, hsome1⟩ :=
        ensureKey_spec years ys hnodup hlen years1 hy1
      obtain ⟨years2, hupd, hkeys2, hlk2, hoth2, hmem2⟩ :=
        updateYears_spec ys m0 (e.value.getD 0) (e.deposit.getD 0) years1 b1 hb1
          hb1v hb1d hm01 hm02
      have hstep : monthlyGo fy ty (e :: rest) years = monthlyGo fy ty rest years2 := by
        rw [monthlyGo_keep_step fy ty e rest years y m0 hp hf ht, ← hy1, hupd]
      have hnodup2 : (years2.map Prod.fst).Nodup := by
        rw [hkeys2]; exact hnodup1
      have hlen2 : ∀ p ∈ years2, p.2.values.length = 12 ∧ p.2.deposits.length = 12 := by
        intro p hp'
        rcases hmem2 p hp' with h | h
        · exact hlen1 p h
        · rw [h]
          constructor
          · simp [hb1v]
          · simp [hb1d]
      obtain ⟨out, hout, h1, h2, h3, h4⟩ := ih years2 hmrest hnodup2 hlen2
      refine ⟨out, by rw [hstep]; exact hout, h1, h2, ?_, ?_⟩
      · intro k m hm1 hm2
        obtain ⟨hv, hd⟩ := h3 k m hm1 hm2
        rw [bucketValueSum_cons, bucketDepositSum_cons, hp0]
        by_cases hk : k = ys
        · subst hk
          by_cases hmm0 : m = m0
          · subst hmm0
            have hv2 : valLookup years2 ys m = valLookup years ys m + e.value.getD 0 := by
              rw [valLookup_of_lookup m hlk2]
              dsimp only
              rw [getD_set_self_q _ (by rw [hb1v]; omega) _,
                (hinit1 m hm01 hm02).1]
            have hd2 : depLookup years2 ys m = depLookup years ys m + e.deposit.getD 0 := by
              rw [depLookup_of_lookup m hlk2]
              dsimp only
              rw [getD_set_self_q _ (by rw [hb1d]; omega) _,
                (hinit1 m hm01 hm02).2]
            constructor
            · rw [hv, hv2, if_pos rfl]; ring
            · rw [hd, hd2, if_pos rfl]; ring
          · have hne : m0 - 1 ≠ m - 1 := by omega
            have hcond : ¬(some (ys, m0) = some (ys, m)) := by
              simp only [Option.some.injEq, Prod.mk.injEq, true_and]
              omega
            have hv2 : valLookup years2 ys m = valLookup years ys m := by
              rw [valLookup_of_lookup m hlk2]
              dsimp only
              rw [getD_set_ne_q _ hne _, (hinit1 m hm1 hm2).1]
            have hd2 : depLookup years2 ys m = depLookup years ys m := by
              rw [depLookup_of_lookup m hlk2]
              dsimp only
              rw [getD_set_ne_q _ hne _, (hinit1 m hm1 hm2).2]
            constructor
            · rw [hv, hv2, if_neg hcond]; ring
            · rw [hd, hd2, if_neg hcond]; ring
        · have hcond : ¬(some (ys, m0) = some (k, m)) := by
            simp only [Option.some.injEq, Prod.mk.injEq]
            intro hc
            exact hk hc.1.symm
          have hlk : years2.lookup k = years.lookup k := by
            rw [hoth2 k hk, hother1 k hk]
          have hv2 : valLookup years2 k m = valLookup years k m := by
            simp [valLookup, hlk]
          have hd2 : depLookup years2 k m = depLookup years k m := by
            simp [depLookup, hlk]
          constructor
          · rw [hv, hv2, if_neg hcond]; ring
          · rw [hd, hd2, if_neg hcond]; ring
      · intro k
        rw [h4 k]
        have hsome2 : (years2.lookup k).isSome ↔ (years1.lookup k).isSome := by
          rw [lookup_isSome_iff_keys, lookup_isSome_iff_keys, hkeys2]
        have hheadE : (∃ m', entryYearKey fy ty e = some (k, m')) ↔ k = ys := by
          rw [hp0]
          constructor
          · rintro ⟨m', hm'⟩
            obtain ⟨h1', _⟩ : ys = k ∧ m0 = m' := by simpa using hm'
            exact h1'.symm
          · rintro rfl
            exact ⟨m0, rfl⟩
        rw [hsome2, hsome1 k]
        constructor
        · rintro ((h | h) | ⟨e', he', hex⟩)
          · exact Or.inl h
          · exact Or.inr ⟨e, List.mem_cons_self _ _, hheadE.mpr h⟩
          · exact Or.inr ⟨e', List.mem_cons_of_mem _ he', hex⟩
        · rintro (h | ⟨e', he', hex⟩)
          · exact Or.inl (Or.inl h)
          · rcases List.mem_cons.mp he' with rfl | he''
            · exact Or.inl (Or.inr (hheadE.mp hex))
            · exact Or.inr ⟨e', he'', hex⟩

/- ===================================================================
   C8: the monthly-by-year bucketizer.
   =================================================================== -/

/-- C8: under the data-model invariant that every parsable date names a
calendar month (month 01..12), `monthly_by_year` succeeds, and for every
year-string key and month: the stored cell equals the *sum* of all
qualifying entries' values (deposits, with 0 for an absent deposit) for
that `(year, month)` slot — so multiple entries for one month accumulate
rather than overwrite; entries whose date does not parse as a YYYY-MM
key contribute nothing and never make the call fail; and a year key is
present in the result exactly when at least one qualifying entry
contributed to that year. -/
theorem c8_monthly_bucketizer (cid : Nat) (fy ty : Option Nat) (entries : List Entry)
    (hm : ∀ e ∈ entries, ∀ y m, parse_month_string e.date = some (y, m) →
      1 ≤ m ∧ m ≤ 12) :
    ∃ out, monthly_by_year cid fy ty entries = Except.ok out
      ∧ out.category_id = cid
      ∧ (∀ p ∈ out.years, p.2.values.length = 12 ∧ p.2.deposits.length = 12)
      ∧ (∀ k m, 1 ≤ m → m ≤ 12 →
          valLookup out.years k m
            = bucketValueSum fy ty (monthlyProcessed fy ty entries) k m
          ∧ depLookup out.years k m
            = bucketDepositSum fy ty (monthlyProcessed fy ty entries) k m)
      ∧ (∀ k, (out.years.lookup k).isSome
          ↔ ∃ e ∈ monthlyProcessed fy ty entries, ∃ m',
              entryYearKey fy ty e = some (k, m')) := by
  have hm' : ∀ e ∈ monthlyProcessed fy ty entries, ∀ y m,
      parse_month_string e.date = some (y, m) → 1 ≤ m ∧ m ≤ 12 :=
    fun e he => hm e (monthlyProcessed_subset fy ty entries e he)
  obtain ⟨yrs, hok, _h1, h2, h3, h4⟩ :=
    monthlyGo_spec fy ty (monthlyProcessed fy ty entries) [] hm' (by simp) (by simp)
  refine ⟨⟨cid, yrs⟩, ?_, rfl, h2, ?_, ?_⟩
  · unfold monthly_by_year
    rw [show sortByDate (sqlPrefilter fy ty entries) = monthlyProcessed fy ty entries
      from rfl]
    rw [hok]
  · intro k m hm1 hm2
    obtain ⟨hv, hd⟩ := h3 k m hm1 hm2
    constructor
    · rw [show (⟨cid, yrs⟩ : MonthlyByYearResult).years = yrs from rfl, hv]
      simp [valLookup]
    · rw [show (⟨cid, yrs⟩ : MonthlyByYearResult).years = yrs from rfl, hd]
      simp [depLookup]
  · intro k
    rw [show (⟨cid, yrs⟩ : MonthlyByYearResult).years = yrs from rfl, h4 k]
    simp

/-- Witness for C8: two entries in the same month of 2024 plus one
unparsable-date entry. -/
theorem c8_witness :
    ∃ out, monthly_by_year 5 none none [entW3, entW4, entW5] = Except.ok out
      ∧ out.category_id = 5
      ∧ (∀ p ∈ out.years, p.2.values.length = 12 ∧ p.2.deposits.length = 12)
      ∧ (∀ k m, 1 ≤ m → m ≤ 12 →
          valLookup out.years k m
            = bucketValueSum none none (monthlyProcessed none none [entW3, entW4, entW5]) k m
          ∧ depLookup out.years k m
            = bucketDepositSum none none (monthlyProcessed none none [entW3, entW4, entW5]) k m)
      ∧ (∀ k, (out.years.lookup k).isSome
          ↔ ∃ e ∈ monthlyProcessed none none [entW3, entW4, entW5], ∃ m',
              entryYearKey none none e = some (k, m')) :=
  c8_monthly_bucketizer 5 none none [entW3, entW4, entW5] (by
    have hp3 : parse_month_string "2024-03" = some (2024, 3) := by decide
    have hp5 : parse_month_string "bad-date" = none := by decide
    intro e he y m hparse
    fin_cases he <;> simp [entW3, entW4, entW5, hp3, hp5] at hparse <;> omega)
